import Mathlib

/-!
Verification development for the go-test-parser repository.

The Go sources are shallowly embedded: the syntactic shapes that the
analysed functions inspect (`go/ast`) become a small mutual inductive
family (`GoExpr`/`GoStmt`), the `go/types` values they query become
`GoType`, and each analysed Go function becomes a Lean function that
mirrors the Go control flow statement by statement.  Machine-level
details that none of the verified properties depend on (token positions,
file sets, loggers) are dropped; every such omission is noted next to the
definition it concerns.
-/

namespace GoTestParser

mutual

/-- Embedding of the `go/ast` expression shapes that the analysed code
inspects.  `call` keeps the callee expression and the argument list
(`ast.CallExpr`), `selector` a selector `x.sel` (`ast.SelectorExpr`),
`star` a pointer type or dereference (`ast.StarExpr`), `compositeLit`
the element list of an `ast.CompositeLit`, `keyValue` an
`ast.KeyValueExpr`, and `funcLit` an `ast.FuncLit` (its `pid` stands for
the literal's source position, which the expander uses to synthesise a
name; parameters are (names, type) pairs).  `binaryExpr` stands for any
other composite expression that merely contains sub-expressions, and
`basicLit` for the atomic remainder. -/
inductive GoExpr where
  | ident (name : String)
  | selector (x : GoExpr) (sel : String)
  | star (x : GoExpr)
  | call (fn : GoExpr) (args : List GoExpr)
  | compositeLit (elts : List GoExpr)
  | keyValue (key value : GoExpr)
  | funcLit (pid : String) (params : List (List String × GoExpr)) (body : List GoStmt)
  | binaryExpr (x y : GoExpr)
  | basicLit
  deriving Repr

/-- Embedding of the `go/ast` statement shapes the analysed code
inspects: expression statements, assignments (right-hand sides only —
the analysed functions never look at assignment targets), `var`
declaration statements (one list of initialiser expressions per
`ValueSpec`), `range` loops (key and value are the loop identifiers, or
`none` when absent — the refactorer type-asserts them to `*ast.Ident`,
so only identifiers are representable), plain `for` loops, `continue`,
`return`, and an opaque remainder. -/
inductive GoStmt where
  | exprStmt (x : GoExpr)
  | assign (rhs : List GoExpr)
  | declStmt (isVar : Bool) (specs : List (List GoExpr))
  | rangeStmt (key value : Option String) (x : GoExpr) (body : List GoStmt)
  | forStmt (body : List GoStmt)
  | continueStmt
  | returnStmt
  | otherStmt
  deriving Repr

end

mutual

/-- Structural equality of expression embeddings (the model's stand-in
for `astequal.Expr`, which compares two `ast.Expr` trees node by node). -/
def GoExpr.beq : GoExpr → GoExpr → Bool
  | .ident a, .ident b => a == b
  | .selector x a, .selector y b => GoExpr.beq x y && a == b
  | .star x, .star y => GoExpr.beq x y
  | .call f a, .call g b => GoExpr.beq f g && GoExpr.beqList a b
  | .compositeLit a, .compositeLit b => GoExpr.beqList a b
  | .keyValue k v, .keyValue k2 v2 => GoExpr.beq k k2 && GoExpr.beq v v2
  | .funcLit p ps b, .funcLit p2 ps2 b2 =>
      p == p2 && GoExpr.beqParams ps ps2 && GoStmt.beqList b b2
  | .binaryExpr x y, .binaryExpr x2 y2 => GoExpr.beq x x2 && GoExpr.beq y y2
  | .basicLit, .basicLit => true
  | _, _ => false

def GoExpr.beqList : List GoExpr → List GoExpr → Bool
  | [], [] => true
  | x :: xs, y :: ys => GoExpr.beq x y && GoExpr.beqList xs ys
  | _, _ => false

def GoExpr.beqParams :
    List (List String × GoExpr) → List (List String × GoExpr) → Bool
  | [], [] => true
  | (n, t) :: xs, (n2, t2) :: ys =>
      n == n2 && GoExpr.beq t t2 && GoExpr.beqParams xs ys
  | _, _ => false

/-- Structural equality of statement embeddings (the model's stand-in
for `astequal.Stmt`). -/
def GoStmt.beq : GoStmt → GoStmt → Bool
  | .exprStmt x, .exprStmt y => GoExpr.beq x y
  | .assign a, .assign b => GoExpr.beqList a b
  | .declStmt v a, .declStmt v2 b => v == v2 && GoExpr.beqListList a b
  | .rangeStmt k v x b, .rangeStmt k2 v2 x2 b2 =>
      k == k2 && v == v2 && GoExpr.beq x x2 && GoStmt.beqList b b2
  | .forStmt b, .forStmt b2 => GoStmt.beqList b b2
  | .continueStmt, .continueStmt => true
  | .returnStmt, .returnStmt => true
  | .otherStmt, .otherStmt => true
  | _, _ => false

def GoExpr.beqListList : List (List GoExpr) → List (List GoExpr) → Bool
  | [], [] => true
  | x :: xs, y :: ys => GoExpr.beqList x y && GoExpr.beqListList xs ys
  | _, _ => false

def GoStmt.beqList : List GoStmt → List GoStmt → Bool
  | [], [] => true
  | x :: xs, y :: ys => GoStmt.beq x y && GoStmt.beqList xs ys
  | _, _ => false

end

instance : BEq GoExpr := ⟨GoExpr.beq⟩
instance : BEq GoStmt := ⟨GoStmt.beq⟩

/-- One entry of a function type's `Params.List`: an `ast.Field` with its
name list and its type expression (`nil` → `none`). -/
structure GoField where
  names : List String
  type : Option GoExpr
  deriving Repr

/-- Embedding of an `ast.FuncDecl` as far as the analysed code reads it:
the declaration name (`Name` can be nil in a degenerate tree), whether a
receiver / type-parameter list / result list is present, the parameter
fields, and the body's statement list. -/
structure FuncDecl where
  name : Option String
  recv : Bool
  typeParams : Bool
  results : Bool
  params : List GoField
  body : List GoStmt
  deriving Repr

/-- The syntactic parameter type `*testing.T` (a `StarExpr` around a
`SelectorExpr` whose `X` is the identifier `testing` and whose `Sel` is
`T`), as `IsValidTestCase` requires it. -/
def testingTType : GoExpr :=
  .star (.selector (.ident "testing") "T")

/-- The condition under which `IsValidTestCase` flags a bad format:
`len(name) < 5 || name[4] < 'A' || name[4] > 'Z'`.  Go indexes `name[4]`
as a byte; since a `Test` prefix pins the first four bytes, the fifth
byte is in `A`..`Z` exactly when the fifth character is, so this
character-level check is equivalent (a multi-byte fifth character has a
lead byte above `Z` and is itself outside `A`..`Z`). -/
def badTestNameFormat (name : String) : Bool :=
  match name.data.drop 4 with
  | [] => true
  | c :: _ => !(decide ('A' ≤ c) && decide (c ≤ 'Z'))

/-- `testcase.IsValidTestCase` (src/pkg/testcase/testcase.go). -/
def IsValidTestCase : Option FuncDecl → Bool × Bool
  | none => (false, false)
  | some funcDecl =>
    match funcDecl.name with
    | none => (false, false)
    | some name =>
      -- make sure the function name starts with "Test"
      if !name.startsWith "Test" then (false, false)
      else
        -- the function's 5th letter *should* be capitalized, but it's not strictly required
        let badFormat : Bool := badTestNameFormat name
        -- make sure the function has no receiver, type parameters, or return value
        if funcDecl.recv || funcDecl.typeParams || funcDecl.results then (false, false)
        else
          -- make sure the function has exactly one parameter, then safely
          -- extract all components of its type, expecting `*testing.T`
          match funcDecl.params with
          | [param] =>
            match param.type with
            | some (.star (.selector (.ident paramPackage) sel)) =>
                -- check that the parameter type is exactly `*testing.T`
                if paramPackage != "testing" || sel != "T" then (false, false)
                else (true, badFormat)
            | _ => (false, false)
          | _ => (false, false)

/-- Embedding of the `go/types` values the analysed code queries.
`basic` is a `*types.Basic` whose flag records whether `Info() ==
types.IsString` (the only `BasicInfo` the code ever tests); `strukt` a
`*types.Struct` with its field names and types; `named` a named type
with its underlying type; `signature` a function type; `otherType` the
remainder. -/
inductive GoType where
  | basic (isStringInfo : Bool)
  | strukt (fields : List (String × GoType))
  | slice (elem : GoType)
  | array (elem : GoType)
  | mapT (key elem : GoType)
  | pointer (elem : GoType)
  | named (u : GoType)
  | signature
  | otherType
  deriving Repr

/-- `types.Type.Underlying()`: peel named types. -/
def GoType.underlying : GoType → GoType
  | .named u => GoType.underlying u
  | t => t

/-- `asttools.Unpointer`: if the type's underlying is a pointer, return
its element, else return the type itself. -/
def Unpointer (t : GoType) : GoType :=
  match t.underlying with
  | .pointer elem => elem
  | _ => t

/-- `asttools.IsBasicType(typ, types.IsString)`: the type is directly a
`*types.Basic` whose info equals `types.IsString`.  The analysed code
only ever passes `types.IsString`, which is what the model's flag
records. -/
def IsBasicType (typ : GoType) : Bool :=
  match typ with
  | .basic isStringInfo => isStringInfo
  | _ => false

mutual

/-- `types.Identical` restricted to the embedded type language:
structural identity. -/
def GoType.identical : GoType → GoType → Bool
  | .basic a, .basic b => a == b
  | .strukt fs, .strukt gs => GoType.identicalFields fs gs
  | .slice a, .slice b => GoType.identical a b
  | .array a, .array b => GoType.identical a b
  | .mapT k a, .mapT k2 b => GoType.identical k k2 && GoType.identical a b
  | .pointer a, .pointer b => GoType.identical a b
  | .named a, .named b => GoType.identical a b
  | .signature, .signature => true
  | .otherType, .otherType => true
  | _, _ => false

def GoType.identicalFields :
    List (String × GoType) → List (String × GoType) → Bool
  | [], [] => true
  | (n, t) :: fs, (n2, t2) :: gs =>
      n == n2 && GoType.identical t t2 && GoType.identicalFields fs gs
  | _, _ => false

end

/-- `ScenarioDataStructure` (src/pkg/testcase/scenarioset.go). -/
inductive ScenarioDataStructure where
  | noDS
  | structListDS
  | mapDS
  deriving Repr, DecidableEq

/-- A top-level `var` declaration of a file (`*ast.GenDecl` as the
recognizer reads it): whether `Tok == token.VAR`, and the initialiser
expressions of each `ValueSpec`. -/
structure GoGenDecl where
  isVar : Bool
  specValues : List (List GoExpr)
  deriving Repr

/-- An AST file, reduced to the top-level declarations the recognizer
walks. -/
structure GoFile where
  decls : List GoGenDecl
  deriving Repr

/-- The `TestCase` context the analysed methods consume: the test's
function declaration, its type-checker lookup `TypeOf` (nil results →
`none`), its enclosing file (`GetFile`; `none` models a nil file), the
file's path (from the fileset), and — for the refactorer — the bytes
`SaveFileContents` produces when formatting the file after the
refactoring (the `go/printer` output, opaque to the model). -/
structure TestCase where
  funcDecl : Option FuncDecl := none
  typeOf : GoExpr → Option GoType := fun _ => none
  file : Option GoFile := none
  filePath : String := ""
  formattedAfterRefactor : List Nat := []

/-- `ScenarioSet` in its newest form (the variant whose
`IdentifyScenarioSet` lives in src/unnamed/part_019): `scenarioType` is
`types.Type` (struct or not), `scenarios` keeps Go's nil/non-nil slice
distinction as an `Option`, `runner` is the iteration statement. -/
structure ScenarioSet where
  scenarioType : Option GoType := none
  dataStructure : ScenarioDataStructure := .noDS
  scenarios : Option (List GoExpr) := none
  runner : Option GoStmt := none
  nameField : String := ""
  expectedFields : List String := []
  hasFunctionFields : Bool := false
  usesSubtest : Bool := false

/-- `detectScenarioDataStructure` (src/unnamed/part_019): classify the
range operand's type, saving the data-structure kind, the scenario
element type, and — for string-keyed maps — the `"map key"` name field. -/
def ScenarioSet.detectScenarioDataStructure (ss : ScenarioSet)
    (typ : Option GoType) : ScenarioSet :=
  match typ with
  | none => { ss with dataStructure := .noDS, scenarioType := none }
  | some t =>
    match t.underlying with
    | .slice elem =>
      -- Check for []struct
      match (Unpointer elem).underlying with
      | .strukt fs =>
          { ss with dataStructure := .structListDS,
                    scenarioType := some (.strukt fs) }
      | _ => { ss with dataStructure := .noDS, scenarioType := none }
    | .array elem =>
      -- Check for [N]struct
      match (Unpointer elem).underlying with
      | .strukt fs =>
          { ss with dataStructure := .structListDS,
                    scenarioType := some (.strukt fs) }
      | _ => { ss with dataStructure := .noDS, scenarioType := none }
    | .mapT key elem =>
      -- map[any]any: the value need not be a struct
      let ss := { ss with dataStructure := .mapDS,
                          scenarioType := some ((Unpointer elem).underlying) }
      -- If the map key is a string (not considering underlying type),
      -- assume it's the scenario name
      if IsBasicType key then { ss with nameField := "map key" } else ss
    | _ => { ss with dataStructure := .noDS, scenarioType := none }

/-- Is the expression an `*ast.KeyValueExpr`? -/
def GoExpr.isKeyValue : GoExpr → Bool
  | .keyValue _ _ => true
  | _ => false

/-- `IdentifyScenarios` (src/unnamed/part_019): if the expression is a
non-empty composite literal whose first element's (value's) underlying
type is `types.Identical` to the scenario type, save the scenarios and
report success.  (For a map, Go would dereference a nil `TypeOf` result
and panic; the model reports failure for that unreachable shape.) -/
def ScenarioSet.identifyScenarios (ss : ScenarioSet) (tc : TestCase)
    (expr : GoExpr) : ScenarioSet × Bool :=
  match expr with
  | .compositeLit elts =>
    match elts with
    | [] => (ss, false)
    | elt0 :: _ =>
      match ss.dataStructure with
      | .structListDS =>
        -- Scenarios are directly stored as the elements of the slice
        match tc.typeOf elt0, ss.scenarioType with
        | some typ, some st =>
          if GoType.identical typ.underlying st then
            ({ ss with scenarios := some elts }, true)
          else (ss, false)
        | _, _ => (ss, false)
      | .mapDS =>
        -- Scenarios are stored as the values of the `KeyValueExpr` elements
        match elt0 with
        | .keyValue _ v =>
          match tc.typeOf v, ss.scenarioType with
          | some typ, some st =>
            if GoType.identical typ.underlying st then
              ({ ss with scenarios := some (elts.filter GoExpr.isKeyValue) }, true)
            else (ss, false)
          | _, _ => (ss, false)
        | _ => (ss, false)
      | .noDS => (ss, false)
  | _ => (ss, false)

/-- `ExpandedStatement` (src/pkg/testcase/expandedstatement.go): one
statement plus the ordered expansions attached to it.  The extra
`inlined` field is a ghost observation recording, in walk order, the
names of the callees whose bodies the expander inlined directly at this
node (each entry corresponds to one `callStack` push in
`expandStatementWithStack`); the Go struct stores only `Stmt` and
`Children`, and `inlined` is used solely to state path properties about
which functions were expanded where. -/
inductive ExpandedStatement where
  | mk (stmt : GoStmt) (children : List ExpandedStatement)
       (inlined : List String)
  deriving Repr

def ExpandedStatement.stmt : ExpandedStatement → GoStmt
  | .mk s _ _ => s

def ExpandedStatement.children : ExpandedStatement → List ExpandedStatement
  | .mk _ cs _ => cs

def ExpandedStatement.inlined : ExpandedStatement → List String
  | .mk _ _ inl => inl

/-- `ExpandedStatement.All` (pre-order iteration over the statements
contained in the tree, the statement itself first). -/
def ExpandedStatement.allStmts : ExpandedStatement → List GoStmt
  | .mk s cs _ => s :: cs.attach.flatMap (fun c => ExpandedStatement.allStmts c.1)
  decreasing_by
    simp_wf
    have := List.sizeOf_lt_of_mem c.2
    omega

/-- `MatchSelectorExpr` (src/pkg/testcase/testcase.go): the expression
has the form `owner.name` with an identifier owner. -/
def MatchSelectorExpr (expr : GoExpr) (owner nm : String) : Bool :=
  match expr with
  | .selector (.ident x) sel => x == owner && sel == nm
  | _ => false

/-- `IsSelectorFuncCall` (src/pkg/testcase/testcase.go): the statement is
a call `owner.name(...)`; also returns the call expression. -/
def IsSelectorFuncCall (stmt : GoStmt) (owner nm : String) :
    Bool × Option GoExpr :=
  match stmt with
  | .exprStmt (.call fn args) =>
      if MatchSelectorExpr fn owner nm then (true, some (.call fn args))
      else (false, none)
  | _ => (false, none)

/-- `ScenarioSet.GetRunnerStatements` (src/pkg/testcase/scenarioset.go):
the statements of the runner loop's body. -/
def ScenarioSet.getRunnerStatements (ss : ScenarioSet) : List GoStmt :=
  match ss.runner with
  | some (.rangeStmt _ _ _ body) => body
  | some (.forStmt body) => body
  | _ => []

/-- `ScenarioSet.GetFields` (src/pkg/testcase/scenarioset.go), adapted to
the newest `ScenarioSet`: the fields when the scenario type is a struct,
else an empty iterator. -/
def ScenarioSet.getFields (ss : ScenarioSet) : List (String × GoType) :=
  match ss.scenarioType with
  | some (.strukt fs) => fs
  | _ => []

/-- Loop body of `ScenarioSet.detectSubtest`: the first top-level
statement of the runner body that is a `t.Run(...)` call. -/
def detectSubtestAux : List GoStmt → Bool × Option GoExpr
  | [] => (false, none)
  | s :: rest =>
    match IsSelectorFuncCall s "t" "Run" with
    | (true, callExpr) => (true, callExpr)
    | (false, _) => detectSubtestAux rest

/-- `ScenarioSet.detectSubtest` (src/pkg/testcase/scenarioset.go). -/
def ScenarioSet.detectSubtest (ss : ScenarioSet) : Bool × Option GoExpr :=
  detectSubtestAux ss.getRunnerStatements

/-- Contiguous-sublist test: does `needle` occur inside `hay`?
(`strings.Contains` on rune lists.) -/
def containsSub [BEq α] : (hay needle : List α) → Bool
  | hay@(_ :: rest), needle => needle.isPrefixOf hay || containsSub rest needle
  | [], needle => needle.isEmpty

/-- Case-insensitive substring test (`strings.Contains(strings.ToLower s,
pat)` for a lower-case `pat`). -/
def containsLower (s pat : String) : Bool :=
  containsSub s.toLower.data pat.data

/-- `ScenarioSet.detectNameField` (src/pkg/testcase/scenarioset.go). -/
def ScenarioSet.detectNameField (ss : ScenarioSet) : String :=
  match ss.scenarioType with
  | none => ""
  | some _ =>
    -- the map-key special case would already be set by detectScenarioDataStructure
    if ss.dataStructure = .mapDS && ss.nameField ≠ "" then ss.nameField
    else
      match ss.detectSubtest with
      | (true, callExpr) =>
        -- check if the first arg of `t.Run()` is a field of the scenario struct
        (match callExpr with
         | some (.call _ (arg0 :: _)) =>
           (match arg0 with
            | .selector _ sel =>
                if (ss.getFields.find? (fun f => f.1 == sel)).isSome then sel
                else ""
            | _ => "")
         | _ => "")
      | (false, _) =>
        -- match field names by substring search (ensuring the field is a string)
        match ss.getFields.find? (fun f => IsBasicType f.2 &&
            (containsLower f.1 "name" || containsLower f.1 "desc")) with
        | some f => f.1
        | none => ""

/-- `ScenarioSet.detectExpectedFields` (src/pkg/testcase/scenarioset.go). -/
def ScenarioSet.detectExpectedFields (ss : ScenarioSet) : List String :=
  match ss.scenarioType with
  | none => []
  | some _ =>
    (ss.getFields.filter (fun f =>
      containsLower f.1 "expect" || containsLower f.1 "want" ||
        containsLower f.1 "result")).map (·.1)

/-- `ScenarioSet.detectFunctionFields` (src/pkg/testcase/scenarioset.go). -/
def ScenarioSet.detectFunctionFields (ss : ScenarioSet) : Bool :=
  match ss.scenarioType with
  | none => false
  | some _ =>
    ss.getFields.any (fun f =>
      match f.2.underlying with
      | .signature => true
      | _ => false)

/-- `ScenarioSet.Analyze` (src/pkg/testcase/scenarioset.go): populate the
derived fields.  The guard is modelled on `scenarioType` (the spec:
derived properties are computed only if `scenarioType` is non-nil; the
older in-repo variant guards on its `ScenarioTemplate` field the same
way).  Only derived fields are written; the four core fields are never
touched. -/
def ScenarioSet.analyze (ss : ScenarioSet) : ScenarioSet :=
  match ss.scenarioType with
  | none => ss
  | some _ =>
    { ss with nameField := ss.detectNameField,
              expectedFields := ss.detectExpectedFields,
              hasFunctionFields := ss.detectFunctionFields,
              usesSubtest := ss.detectSubtest.1 }

/-- Scan the right-hand-side expressions of one assignment, stopping at
the first expression whose scenarios match (`continue outerStmtLoop`). -/
def scanRhsExprs (tc : TestCase) (ss : ScenarioSet) :
    List GoExpr → ScenarioSet × Bool
  | [] => (ss, false)
  | e :: rest =>
    match ss.identifyScenarios tc e with
    | (ss', true) => (ss', true)
    | (ss', false) => scanRhsExprs tc ss' rest

/-- Scan the value expressions of the `ValueSpec`s of one `var`
declaration, stopping at the first match. -/
def scanSpecValues (tc : TestCase) (ss : ScenarioSet) :
    List (List GoExpr) → ScenarioSet × Bool
  | [] => (ss, false)
  | values :: rest =>
    match scanRhsExprs tc ss values with
    | (ss', true) => (ss', true)
    | (ss', false) => scanSpecValues tc ss' rest

/-- The scenario-search step of `IdentifyScenarioSet`'s inner loop for
one statement of an expansion tree: only assignments and `var`
declarations are inspected, and only while the scenarios are still
unfound and a scenario type is known. -/
def searchScenarioStmt (tc : TestCase) (ss : ScenarioSet) (stmt : GoStmt) :
    ScenarioSet × Bool :=
  match ss.scenarios, ss.scenarioType with
  | none, some _ =>
    (match stmt with
     | .assign rhs => scanRhsExprs tc ss rhs
     | .declStmt isVar specs =>
         if isVar then scanSpecValues tc ss specs else (ss, false)
     | _ => (ss, false))
  | _, _ => (ss, false)

/-- `IdentifyScenarioSet`'s inner loop over `expanded.All()`, with the
`continue outerStmtLoop` early exit. -/
def searchScenarioStmts (tc : TestCase) (ss : ScenarioSet) :
    List GoStmt → ScenarioSet
  | [] => ss
  | s :: rest =>
    match searchScenarioStmt tc ss s with
    | (ss', true) => ss'
    | (ss', false) => searchScenarioStmts tc ss' rest

/-- Is the expression an `*ast.CompositeLit` (the type assertion
`rangeStmt.X.(*ast.CompositeLit)`)? -/
def GoExpr.isCompositeLit : GoExpr → Bool
  | .compositeLit _ => true
  | _ => false

/-- The runner-detection block of `IdentifyScenarioSet` for a top-level
`range` statement (src/unnamed/part_019): classify the operand's type,
and — when a data structure is recognized — optionally match an inline
composite literal and record the loop as the runner. -/
def handleRangeRunner (tc : TestCase) (ss : ScenarioSet)
    (key value : Option String) (x : GoExpr) (body : List GoStmt) :
    ScenarioSet :=
  -- Make sure the loop ranges over a valid data structure
  let ss := ss.detectScenarioDataStructure (tc.typeOf x)
  if ss.dataStructure = .noDS then ss -- continue outerStmtLoop
  else
    -- Check if the data structure is defined directly in the range statement
    let ss := if x.isCompositeLit then (ss.identifyScenarios tc x).1 else ss
    { ss with runner := some (.rangeStmt key value x body) }
    -- continue outerStmtLoop

/-- One iteration of `IdentifyScenarioSet`'s outer loop
(src/unnamed/part_019): runner detection on the top-level statement when
no runner is known yet (a recognized `range` loop always moves on to the
next statement), otherwise the scenario search over the expansion
tree. -/
def processExpandedStatement (tc : TestCase) (ss : ScenarioSet)
    (expandedOpt : Option ExpandedStatement) : ScenarioSet :=
  match expandedOpt with
  | none => ss -- nil statement: warn and continue
  | some expanded =>
    match ss.runner with
    | none =>
      (match expanded.stmt with
       | .rangeStmt key value x body => handleRangeRunner tc ss key value x body
       | _ => searchScenarioStmts tc ss expanded.allStmts)
    | some _ => searchScenarioStmts tc ss expanded.allStmts

/-- The file-declaration phase: scan top-level `var` declarations,
stopping at the first match (`break declLoop`). -/
def scanFileDecls (tc : TestCase) (ss : ScenarioSet) :
    List GoGenDecl → ScenarioSet
  | [] => ss
  | d :: rest =>
    if !d.isVar then scanFileDecls tc ss rest -- only check variable declarations
    else
      match scanSpecValues tc ss d.specValues with
      | (ss', true) => ss'
      | (ss', false) => scanFileDecls tc ss' rest

/-- The file-declaration fallback of `IdentifyScenarioSet`: if the loop
was found but the scenario definitions were not, check the file's
top-level declarations. -/
def fileDeclPhase (tc : TestCase) (ss : ScenarioSet) : ScenarioSet :=
  match ss.scenarios, ss.scenarioType with
  | none, some _ =>
    (match tc.file with
     | none => ss -- error log: cannot check file declarations
     | some file => scanFileDecls tc ss file.decls)
  | _, _ => ss

/-- `IdentifyScenarioSet` (src/unnamed/part_019): walk the expanded
statements in reverse to find the runner loop and the scenario
definitions, fall back to the file's top-level `var` declarations, then
run the derived analysis. -/
def IdentifyScenarioSet (tc : Option TestCase)
    (statements : List (Option ExpandedStatement)) : Option ScenarioSet :=
  match tc with
  | none => none
  | some tc =>
    match statements with
    | [] => none
    | _ :: _ =>
      let ss : ScenarioSet := {}
      let ss := (statements.reverse).foldl (processExpandedStatement tc) ss
      some (fileDeclPhase tc ss).analyze

/-- `ScenarioSet.IsTableDriven` (src/pkg/testcase/scenarioset.go), lifted
over the nil receiver. -/
def IsTableDriven : Option ScenarioSet → Bool
  | none => false
  | some ss => ss.dataStructure != .noDS

/-- Sample scenario struct `struct{Name string; Want int}` for concrete
witnesses. -/
def sampleScenarioStructT : GoType :=
  .strukt [("Name", .basic true), ("Want", .basic false)]

/-- Sample inline scenario list `[]T{{...}, {...}}`. -/
def sampleCasesLit : GoExpr :=
  .compositeLit [.compositeLit [.basicLit], .compositeLit [.ident "x"]]

/-- Sample test-case context: `cases` has type `[]T` and the two struct
literals have type `T`. -/
def sampleTestCase : TestCase :=
  { typeOf := fun e =>
      if e == GoExpr.ident "cases" then
        some (.slice (.named sampleScenarioStructT))
      else if e == GoExpr.compositeLit [.basicLit] ||
          e == GoExpr.compositeLit [.ident "x"] then
        some sampleScenarioStructT
      else none,
    file := some ⟨[]⟩ }

/-- Sample runner loop `for _, tt := range cases { ... }`. -/
def sampleRunner : GoStmt :=
  .rangeStmt (some "_") (some "tt") (.ident "cases") [.otherStmt]

/-- Sample test body: the scenario assignment, then the runner loop. -/
def sampleStatements : List (Option ExpandedStatement) :=
  [some (.mk (.assign [sampleCasesLit]) [] []),
   some (.mk sampleRunner [] [])]

/-- The `ScenarioSet` the recognizer produces for the sample test. -/
def sampleScenarioResult : ScenarioSet :=
  (IdentifyScenarioSet (some sampleTestCase) sampleStatements).getD {}

/-- The recognizer's core-field invariant: what `detectScenarioDataStructure`
establishes and every later phase preserves. -/
def CoreInv (tc : TestCase) (ss : ScenarioSet) : Prop :=
  (ss.dataStructure = .noDS →
      ss.scenarioType = none ∧ ss.scenarios = none ∧ ss.runner = none) ∧
  (ss.dataStructure = .structListDS →
      ∃ fs, ss.scenarioType = some (.strukt fs)) ∧
  (ss.scenarios ≠ none → ss.dataStructure ≠ .noDS) ∧
  (ss.dataStructure ≠ .noDS →
      ∃ key value x body, ss.runner = some (.rangeStmt key value x body) ∧
        (ScenarioSet.detectScenarioDataStructure {} (tc.typeOf x)).dataStructure
          = ss.dataStructure ∧
        (ScenarioSet.detectScenarioDataStructure {} (tc.typeOf x)).scenarioType
          = ss.scenarioType)

/-- `RefactorStrategy` (src/unnamed/part_019). -/
inductive RefactorStrategy where
  | noStrategy -- RefactorStrategyNone
  | subtest    -- RefactorStrategySubtest
  deriving Repr, DecidableEq

/-- `RefactorGenerationStatus` (src/unnamed/part_019). -/
inductive RefactorGenerationStatus where
  | noStatus  -- RefactorGenerationStatusNone
  | genError  -- RefactorGenerationStatusError
  | badFields -- RefactorGenerationStatusBadFields
  | noTester  -- RefactorGenerationStatusNoTester
  | genFail   -- RefactorGenerationStatusFail
  | success   -- RefactorGenerationStatusSuccess
  deriving Repr, DecidableEq

/-- `TestExecutionResult` (src/pkg/testcase/testcontext.go):
unknown / pass / fail. -/
inductive TestExecutionResult where
  | unknown
  | pass
  | fail
  deriving Repr, DecidableEq

/-- The syntactic parameter type `*require.TestingT`, the second
candidate the spec's tester detection names. -/
def requireTestingTType : GoExpr :=
  .star (.selector (.ident "require") "TestingT")

/-- Parameter scan of `GetParamNameByType`: the first parameter whose
type is `astequal` to a candidate and which has at least one name. -/
def findParamByTypes (paramTypes : List GoExpr) :
    List GoField → Option String
  | [] => none
  | param :: rest =>
    match param.type with
    | none => findParamByTypes paramTypes rest
    | some t =>
      if paramTypes.any (fun c => GoExpr.beq t c) then
        match param.names with
        | [] => findParamByTypes paramTypes rest -- matching type but no name
        | n :: _ => some n
      else findParamByTypes paramTypes rest

/-- `asttools.GetParamNameByType` (src/pkg/asttools/asttools.go): the
name of the first parameter structurally equal to one of the candidate
types.  Error returns are folded into `none`. -/
def GetParamNameByType (funcDecl : Option FuncDecl)
    (paramTypes : List GoExpr) : Option String :=
  match funcDecl with
  | none => none -- uninitialized function declaration
  | some fd =>
    if paramTypes.isEmpty then none -- no parameter types given
    else findParamByTypes paramTypes fd.params

/-- `RefactoredFunction` (src/unnamed/part_019) as the disk phase of
`AttemptRefactoring` consumes it: the file path, the bytes
`SaveFileContents` writes for that file (the formatted post-refactor
AST, opaque to the model), and whether a cleanup closure is present. -/
structure RefactoredFunctionM where
  filePath : String
  formatted : List Nat
  hasCleanup : Bool
  deriving Repr

/-- The outcome of `refactorToSubtests`: the generation status, the
`ScenarioSet` after its in-place AST mutation, the one-element
refactoring list (empty on failure), and whether the error return was
non-nil. -/
structure SubtestGenResult where
  status : RefactorGenerationStatus
  newSS : Option ScenarioSet
  refactorings : List RefactoredFunctionM
  isErr : Bool

/-- The name-field selection of `refactorToSubtests`: the recognizer's
name field, or the first string-typed struct field. -/
def pickNameField (ss : ScenarioSet) : String :=
  if ss.nameField == "" then
    match ss.getFields.find? (fun f => IsBasicType f.2) with
    | some f => f.1
    | none => ""
  else ss.nameField

/-- `refactorToSubtests` (src/pkg/testcase/refactormethods.go): wrap the
runner body in `t.Run(name, func(t *testing.T) { ... })`.
`cloneHelperFunction` — which only chooses whether the in-place changes
land on the test's own declaration or on a deep copy of a helper
declaration, and prepares the cleanup closure — is not modelled: the
claims verified here concern the loop transformation, the name
expression and the status, all of which are independent of which
declaration carries the mutated loop. -/
def refactorToSubtests (tc : Option TestCase) (sso : Option ScenarioSet) :
    SubtestGenResult :=
  match tc with
  | none => ⟨.genError, sso, [], true⟩
  | some tc =>
    match tc.funcDecl with
    | none => ⟨.genError, sso, [], true⟩ -- no function declaration
    | some _ =>
      match sso with
      | none => ⟨.genError, sso, [], true⟩ -- not table-driven
      | some ss =>
        -- Detect the key/value variable names used by the loop
        match ss.runner with
        | some (.rangeStmt key value x _body) =>
          (match key, value with
           | some loopKeyName, some loopValueName =>
             -- Use the detected scenario name field, or the first
             -- string-typed struct field
             let nameField := pickNameField ss
             if nameField == "" then ⟨.badFields, some ss, [], false⟩
             else
               -- Create an expression representing the scenario name
               let loopKeyName2 :=
                 if nameField == "map key" then
                   -- If the key is ignored, use a default name
                   if loopKeyName == "_" then "test" else loopKeyName
                 else loopKeyName
               let scenarioNameExpr : GoExpr :=
                 if nameField == "map key" then .ident loopKeyName2
                 else .selector (.ident loopValueName) nameField
               -- Construct the actual `t.Run()` call statement
               -- (the `testing.T` param name is hardcoded as "t")
               let tRunCall : GoStmt :=
                 .exprStmt (.call (.selector (.ident "t") "Run")
                   [scenarioNameExpr,
                    .funcLit "" [(["t"], testingTType)]
                      ss.getRunnerStatements])
               -- Apply the refactoring to the underlying AST: replace
               -- the loop body, and update the key identifier in place
               -- if it changed
               let newRunner : GoStmt :=
                 .rangeStmt (some loopKeyName2) (some loopValueName) x
                   [tRunCall]
               ⟨.success, some { ss with runner := some newRunner },
                [⟨tc.filePath, tc.formattedAfterRefactor, false⟩], false⟩
           | _, _ => ⟨.genFail, some ss, [], false⟩) -- nil key or value
        | _ => ⟨.genFail, some ss, [], false⟩ -- unsupported loop type

/-- The body of the subtest closure a successful `refactorToSubtests`
generated: the statement list of the function literal passed to
`t.Run`. -/
def subtestClosureBody (r : SubtestGenResult) : Option (List GoStmt) :=
  match r.newSS with
  | some ss =>
    (match ss.runner with
     | some (.rangeStmt _ _ _
         [.exprStmt (.call _ [_, .funcLit _ _ closureBody])]) =>
       some closureBody
     | _ => none)
  | none => none

/-- The scenario-name argument a successful `refactorToSubtests` passed
to `t.Run`. -/
def subtestNameArg (r : SubtestGenResult) : Option GoExpr :=
  match r.newSS with
  | some ss =>
    (match ss.runner with
     | some (.rangeStmt _ _ _
         [.exprStmt (.call _ (nameArg :: _))]) => some nameArg
     | _ => none)
  | none => none

/-- The runner statement after a `refactorToSubtests` mutation. -/
def subtestRunnerOf (r : SubtestGenResult) : Option GoStmt :=
  match r.newSS with
  | some ss => ss.runner
  | none => none

/-- The function expression of the single call in the mutated runner's
body. -/
def subtestCallFun (r : SubtestGenResult) : Option GoExpr :=
  match subtestRunnerOf r with
  | some (.rangeStmt _ _ _ [.exprStmt (.call fn _)]) => some fn
  | _ => none

/-- A test-function declaration with no parameters at all (so neither a
`*testing.T` nor a `*require.TestingT` parameter exists). -/
def sampleRefactorFuncDecl : FuncDecl :=
  ⟨some "TestM", false, false, false, [], [.otherStmt]⟩

/-- Test-case context for concrete refactoring runs. -/
def sampleRefactorTC : TestCase :=
  { funcDecl := some sampleRefactorFuncDecl, filePath := "a.go",
    formattedAfterRefactor := [2] }

/-- A recognized struct-list scenario set with name field `Name`. -/
def sampleStructListSS : ScenarioSet :=
  { scenarioType := some sampleScenarioStructT,
    dataStructure := .structListDS, scenarios := some [.basicLit],
    runner := some sampleRunner, nameField := "Name" }

/-- A recognized string-keyed map scenario set whose runner ignores the
loop key (`for _, v := range m`). -/
def sampleMapSS : ScenarioSet :=
  { scenarioType := some (.basic false), dataStructure := .mapDS,
    scenarios := some [.keyValue .basicLit .basicLit],
    runner := some (.rangeStmt (some "_") (some "v") (.ident "m")
      [.otherStmt]),
    nameField := "map key" }

/-- A recognized struct-list scenario set whose runner body is a single
top-level `continue` statement. -/
def sampleContinueSS : ScenarioSet :=
  { scenarioType := some sampleScenarioStructT,
    dataStructure := .structListDS, scenarios := some [.basicLit],
    runner := some (.rangeStmt (some "i") (some "tt") (.ident "cases")
      [.continueStmt]),
    nameField := "Name" }

/-- `AnalysisResult` as `AttemptRefactoring` reads it: the test case,
whether its fileset is available, and the scenario set. -/
structure AnalysisResult where
  tc : Option TestCase := none
  hasFset : Bool := true
  ss : Option ScenarioSet := none

/-- `RefactorResult` (src/unnamed/part_019). -/
structure RefactorResultM where
  strategy : RefactorStrategy
  generationStatus : RefactorGenerationStatus := .noStatus
  refactorings : List RefactoredFunctionM := []
  originalExecutionResult : TestExecutionResult := .unknown
  refactoredExecutionResult : TestExecutionResult := .unknown
  deriving Repr

/-- On-disk contents, path → bytes. -/
def Disk : Type := String → List Nat

/-- Point update of the disk. -/
def Disk.write (d : Disk) (path : String) (bytes : List Nat) : Disk :=
  fun p => if p == path then bytes else d p

/-- The I/O oracle for one `AttemptRefactoring` run: which paths fail to
read (`os.ReadFile`), fail the refactored write (`SaveFileContents`),
fail the restore write (`os.WriteFile`), and the two `tc.Execute()`
outcomes. -/
structure DiskEnv where
  readFails : String → Bool
  writeFails : String → Bool
  restoreFails : String → Bool
  execBefore : TestExecutionResult
  execAfter : TestExecutionResult

/-- The save loop of `AttemptRefactoring` (lines 94-117 of
src/pkg/testcase/refactormethods.go): for each refactoring, skip
already-processed paths, read the original bytes into
`originalFileContents`, then overwrite the file with the refactored
bytes.  A read or write error aborts the loop (`return *rr`).  Returns
the disk, the saved-originals map, and whether the loop completed. -/
def saveRefactoredFiles (env : DiskEnv) :
    List RefactoredFunctionM → Disk → List (String × List Nat) →
    Disk × List (String × List Nat) × Bool
  | [], disk, saved => (disk, saved, true)
  | r :: rest, disk, saved =>
    if (saved.find? (fun kv => kv.1 == r.filePath)).isSome then
      saveRefactoredFiles env rest disk saved -- already processed this file
    else if env.readFails r.filePath then
      (disk, saved, false) -- error reading original file contents
    else
      let saved := saved ++ [(r.filePath, disk r.filePath)]
      if env.writeFails r.filePath then
        (disk, saved, false) -- error saving refactored file
      else
        saveRefactoredFiles env rest (disk.write r.filePath r.formatted)
          saved

/-- The restore loop of `AttemptRefactoring` (lines 131-140): write each
file's original bytes back, then run the refactoring's cleanup.  A
restore error aborts the loop, skipping the remaining restores and every
remaining cleanup.  Returns the disk, the refactorings whose cleanup ran,
and whether the loop completed. -/
def restoreOriginalFiles (env : DiskEnv)
    (saved : List (String × List Nat)) :
    List RefactoredFunctionM → Disk → List RefactoredFunctionM →
    Disk × List RefactoredFunctionM × Bool
  | [], disk, cleaned => (disk, cleaned, true)
  | r :: rest, disk, cleaned =>
    if env.restoreFails r.filePath then
      (disk, cleaned, false) -- error restoring original contents
    else
      let original :=
        ((saved.find? (fun kv => kv.1 == r.filePath)).map (·.2)).getD []
      restoreOriginalFiles env saved rest (disk.write r.filePath original)
        (cleaned ++ [r])

/-- `AttemptRefactoring` (src/pkg/testcase/refactormethods.go): the
strategy dispatch, the generation step, and the verification phase
(execute, save to disk, execute, restore).  Returns the refactor result,
the final disk, and the refactorings whose cleanup ran. -/
def AttemptRefactoring (strategy : RefactorStrategy)
    (ar : Option AnalysisResult) (env : DiskEnv) (disk : Disk) :
    RefactorResultM × Disk × List RefactoredFunctionM :=
  match ar with
  | none => ({ strategy := strategy, generationStatus := .genFail }, disk, [])
  | some ar =>
    match strategy with
    | .noStrategy => ({ strategy := strategy }, disk, []) -- nothing to do
    | .subtest =>
      match ar.tc with
      | none =>
        ({ strategy := strategy, generationStatus := .genFail }, disk, [])
      | some tc =>
        if !ar.hasFset then
          ({ strategy := strategy, generationStatus := .genFail }, disk, [])
        -- Only refactor table-driven tests that do not already use subtests
        else if ar.ss.isNone || !(IsTableDriven ar.ss) ||
            (ar.ss.map (·.usesSubtest)).getD false then
          ({ strategy := strategy }, disk, []) -- not a candidate
        else
          let gen := refactorToSubtests (some tc) ar.ss
          if gen.isErr then
            ({ strategy := strategy, generationStatus := .genFail }, disk, [])
          else if gen.status != .success then
            ({ strategy := strategy, generationStatus := gen.status,
               refactorings := gen.refactorings }, disk, [])
          else
            -- Execute the test case before saving the refactoring
            let origExec := env.execBefore
            let saveResult := saveRefactoredFiles env gen.refactorings disk []
            if !saveResult.2.2 then
              ({ strategy := strategy, generationStatus := gen.status,
                 refactorings := gen.refactorings,
                 originalExecutionResult := origExec }, saveResult.1, [])
            else
              -- Run the test after refactoring
              let refExec := env.execAfter
              -- Restore the original file contents on the disk
              let restoreResult := restoreOriginalFiles env saveResult.2.1
                gen.refactorings saveResult.1 []
              ({ strategy := strategy, generationStatus := gen.status,
                 refactorings := gen.refactorings,
                 originalExecutionResult := origExec,
                 refactoredExecutionResult := refExec },
               restoreResult.1, restoreResult.2.1)

/-- Paths touched by a refactoring list. -/
def pathsOf (rs : List RefactoredFunctionM) : List String :=
  rs.map (·.filePath)

/-- Invariant of the save loop relative to the pre-refactor disk
`disk0`: a path recorded in `originalFileContents` holds its original
bytes there, and an unrecorded path is untouched on disk. -/
def SaveInv (disk0 disk : Disk) (saved : List (String × List Nat)) :
    Prop :=
  ∀ p, (match saved.find? (fun kv => kv.1 == p) with
        | some kv => kv.2 = disk0 p
        | none => disk p = disk0 p)

/-- The disk whose every file holds the single byte 1 (the pre-refactor
contents for concrete runs). -/
def sampleDisk : Disk := fun _ => [1]

/-- An I/O oracle where reads and refactored writes succeed but every
restore write fails. -/
def sampleFailingRestoreEnv : DiskEnv :=
  { readFails := fun _ => false, writeFails := fun _ => false,
    restoreFails := fun _ => true, execBefore := .pass,
    execAfter := .pass }

/-- An I/O oracle where every disk operation succeeds. -/
def sampleCleanEnv : DiskEnv :=
  { readFails := fun _ => false, writeFails := fun _ => false,
    restoreFails := fun _ => false, execBefore := .pass,
    execAfter := .pass }

/-- An analysis result pairing the sample test case with the recognized
map scenario set. -/
def sampleAR : AnalysisResult :=
  { tc := some sampleRefactorTC, ss := some sampleMapSS }

/-- Whether an expression is an `*ast.CallExpr` (the type assertion at
line 71 and the argument check at line 95 of
src/pkg/testcase/expandedstatement.go). -/
def GoExpr.isCall : GoExpr → Bool
  | .call _ _ => true
  | _ => false

/-- Resolution environment for `FindDefinition`: maps a function name to
the body statements of its `*ast.FuncDecl` when the name resolves to a
function declared in the test case's own package, and to `none` when the
definition is excluded (external package, universe scope, unresolvable,
or a definition shape without an accessible body). -/
def ExpandEnv := String → Option (List GoStmt)

/-- The name/body detection of `expandStatementWithStack` (lines
101-127): `FindDefinition` resolves an identifier or a selector's `Sel`
through the type information (modelled by the environment), and a
directly-called function literal yields the synthetic name
`funcLit@<position>` with its own body; every other callee shape is
skipped. -/
def resolveCall (env : ExpandEnv) : GoExpr → Option (String × List GoStmt)
  | .ident n => (env n).map (fun b => (n, b))
  | .selector _ s => (env s).map (fun b => (s, b))
  | .funcLit pid _ body => some ("funcLit@" ++ pid, body)
  | _ => none

/-- Result of walking part of one statement inside a single
`ast.Inspect` run: the call stack after the walk (the closure variable
`callStack`, which the handler mutates in place), the
`ExpandedStatement` nodes appended to the attachment target, and the
names pushed onto the call stack by this part of the walk (the ghost
observation of line 135). -/
def WalkOut : Type :=
  List String × List ExpandedStatement × List String

mutual

/-- `expandStatementWithStack` (src/pkg/testcase/expandedstatement.go
lines 42-146): build the root node for `stmt` and run `ast.Inspect`
over it; calls found anywhere in the walk append children to the root
directly when the root statement is an `*ast.ExprStmt`, and otherwise
each call gets its own wrapped `ExprStmt` node appended to the root.
`fuel` bounds the recursion depth (the Go recursion is bounded by the
call-stack guard; the model makes the bound explicit). -/
def expandStmtW (env : ExpandEnv) (fuel : Nat) (stmt : GoStmt)
    (callStack : List String) : ExpandedStatement :=
  match fuel with
  | 0 => .mk stmt [] []
  | fuel + 1 =>
    let isExprRoot := match stmt with | .exprStmt _ => true | _ => false
    let r := inspectStmt env isExprRoot fuel callStack stmt
    .mk stmt r.2.1 (if isExprRoot then r.2.2 else [])

/-- One `ast.Inspect` step on a statement node: statements are never
`*ast.CallExpr`, so the walk always descends into their children
(expressions first, then nested statements, in source order). -/
def inspectStmt (env : ExpandEnv) (ier : Bool) (fuel : Nat)
    (stack : List String) (s : GoStmt) : WalkOut :=
  match fuel with
  | 0 => (stack, [], [])
  | fuel + 1 =>
    match s with
    | .exprStmt x => inspectExpr env ier fuel stack x
    | .assign rhs => inspectExprs env ier fuel stack rhs
    | .declStmt _ specs => inspectSpecs env ier fuel stack specs
    | .rangeStmt _ _ x body =>
        let r1 := inspectExpr env ier fuel stack x
        let r2 := inspectStmts env ier fuel r1.1 body
        (r2.1, r1.2.1 ++ r2.2.1, r1.2.2 ++ r2.2.2)
    | .forStmt body => inspectStmts env ier fuel stack body
    | .continueStmt => (stack, [], [])
    | .returnStmt => (stack, [], [])
    | .otherStmt => (stack, [], [])

/-- Walk a list of statements sequentially, threading the mutated call
stack from one to the next (the closure variable persists across the
whole `Inspect` run). -/
def inspectStmts (env : ExpandEnv) (ier : Bool) (fuel : Nat)
    (stack : List String) (ss : List GoStmt) : WalkOut :=
  match fuel with
  | 0 => (stack, [], [])
  | fuel + 1 =>
    match ss with
    | [] => (stack, [], [])
    | s :: rest =>
        let r1 := inspectStmt env ier fuel stack s
        let r2 := inspectStmts env ier fuel r1.1 rest
        (r2.1, r1.2.1 ++ r2.2.1, r1.2.2 ++ r2.2.2)

/-- Walk a list of expressions sequentially (composite-literal elements,
assignment right-hand sides, call-free traversal order). -/
def inspectExprs (env : ExpandEnv) (ier : Bool) (fuel : Nat)
    (stack : List String) (es : List GoExpr) : WalkOut :=
  match fuel with
  | 0 => (stack, [], [])
  | fuel + 1 =>
    match es with
    | [] => (stack, [], [])
    | e :: rest =>
        let r1 := inspectExpr env ier fuel stack e
        let r2 := inspectExprs env ier fuel r1.1 rest
        (r2.1, r1.2.1 ++ r2.2.1, r1.2.2 ++ r2.2.2)

/-- Walk the value lists of a `var` declaration's specs. -/
def inspectSpecs (env : ExpandEnv) (ier : Bool) (fuel : Nat)
    (stack : List String) (specs : List (List GoExpr)) : WalkOut :=
  match fuel with
  | 0 => (stack, [], [])
  | fuel + 1 =>
    match specs with
    | [] => (stack, [], [])
    | sp :: rest =>
        let r1 := inspectExprs env ier fuel stack sp
        let r2 := inspectSpecs env ier fuel r1.1 rest
        (r2.1, r1.2.1 ++ r2.2.1, r1.2.2 ++ r2.2.2)

/-- One `ast.Inspect` step on an expression node.  A `*ast.CallExpr`
triggers the handler (`processCall`) and stops the automatic descent
(the handler returns false); when the root is an `*ast.ExprStmt` the
handler's children attach to the root itself, otherwise they attach to
a fresh wrapped `ExprStmt` node (lines 78-89).  Every other node kind
returns true and the walk descends into its sub-expressions (a function
literal's parameter types and body statements included). -/
def inspectExpr (env : ExpandEnv) (ier : Bool) (fuel : Nat)
    (stack : List String) (e : GoExpr) : WalkOut :=
  match fuel with
  | 0 => (stack, [], [])
  | fuel + 1 =>
    match e with
    | .ident _ => (stack, [], [])
    | .basicLit => (stack, [], [])
    | .selector x _ => inspectExpr env ier fuel stack x
    | .star x => inspectExpr env ier fuel stack x
    | .call fn args =>
        let r := processCall env fuel stack fn args
        if ier then r
        else
          (r.1,
           [ExpandedStatement.mk (.exprStmt (.call fn args)) r.2.1 r.2.2],
           r.2.2)
    | .compositeLit elts => inspectExprs env ier fuel stack elts
    | .keyValue k v =>
        let r1 := inspectExpr env ier fuel stack k
        let r2 := inspectExpr env ier fuel r1.1 v
        (r2.1, r1.2.1 ++ r2.2.1, r1.2.2 ++ r2.2.2)
    | .funcLit _ params body =>
        let r1 := inspectExprs env ier fuel stack (params.map (·.2))
        let r2 := inspectStmts env ier fuel r1.1 body
        (r2.1, r1.2.1 ++ r2.2.1, r1.2.2 ++ r2.2.2)
    | .binaryExpr x y =>
        let r1 := inspectExpr env ier fuel stack x
        let r2 := inspectExpr env ier fuel r1.1 y
        (r2.1, r1.2.1 ++ r2.2.1, r1.2.2 ++ r2.2.2)

/-- The `Inspect` handler's work on one call expression (lines 91-142):
first every argument that is itself a call is expanded as a standalone
statement using the call stack AS IT IS AT THIS POINT — before the
callee's own name is pushed (the comment at line 94); then the callee is
resolved, the recursion guard checks the current stack (line 130), and
on a fresh callee the name is pushed (line 135, mutating the closure
variable for the remainder of the walk) and the body statements are
expanded with the extended stack (line 139). -/
def processCall (env : ExpandEnv) (fuel : Nat) (stack : List String)
    (fn : GoExpr) (args : List GoExpr) : WalkOut :=
  match fuel with
  | 0 => (stack, [], [])
  | fuel + 1 =>
    let argChildren := (args.filter GoExpr.isCall).map
      (fun a => expandStmtW env fuel (.exprStmt a) stack)
    match resolveCall env fn with
    | none => (stack, argChildren, [])
    | some nb =>
        if stack.contains nb.1 then (stack, argChildren, [])
        else
          let stack2 := stack ++ [nb.1]
          let bodyChildren := nb.2.map (fun s => expandStmtW env fuel s stack2)
          (stack2, argChildren ++ bodyChildren, [nb.1])

end

/-- `ExpandStatement` (src/pkg/testcase/expandedstatement.go lines
36-38): expansion of one statement always starts from a nil (empty)
call stack. -/
def ExpandStatement (env : ExpandEnv) (fuel : Nat) (stmt : GoStmt) :
    ExpandedStatement :=
  expandStmtW env fuel stmt []

mutual

/-- All ghost inline records anywhere in an expansion tree. -/
def ExpandedStatement.allInlined : ExpandedStatement → List String
  | .mk _ cs inl => inl ++ ExpandedStatement.allInlinedList cs

/-- All ghost inline records anywhere in a forest of expansion trees. -/
def ExpandedStatement.allInlinedList :
    List ExpandedStatement → List String
  | [] => []
  | c :: cs =>
      ExpandedStatement.allInlined c ++ ExpandedStatement.allInlinedList cs

end

mutual

/-- The list of root-to-leaf paths of an expansion tree, each path
listed as the concatenation of the function names inlined at the nodes
along it (root first). -/
def ExpandedStatement.pathNames : ExpandedStatement → List (List String)
  | .mk _ [] inl => [inl]
  | .mk _ (c :: cs) inl =>
      (ExpandedStatement.pathNamesList (c :: cs)).map (fun p => inl ++ p)

/-- The root-to-leaf paths of every tree in a forest, concatenated. -/
def ExpandedStatement.pathNamesList :
    List ExpandedStatement → List (List String)
  | [] => []
  | c :: cs =>
      ExpandedStatement.pathNames c ++ ExpandedStatement.pathNamesList cs

end

/-- Concrete environment for expansion runs: one same-package function
`f` whose body is a single opaque statement. -/
def sampleRecEnv : ExpandEnv :=
  fun n => if n = "f" then some [.otherStmt] else none

/-- The statement `f(f(x))`: a call whose argument is another call of
the same function. -/
def sampleRecStmt : GoStmt :=
  .exprStmt (.call (.ident "f") [.call (.ident "f") [.ident "x"]])

/-- Observable events of one `Parse` run (src/unnamed/part_011): a
directory fully processed by `parseDir` (which ends by calling the
task's `ReportResults`), and the single `task.Close()` call of the
epilogue. -/
inductive ParseEvent where
  | parsedDir (dir : String)
  | closed
  deriving Repr, DecidableEq

/-- The sequential (one-thread) schedule of the per-subdirectory worker
goroutines of `Parse` (lines 77-110): each subdirectory is handed to
`parseDir`; the first failure cancels the context, so the remaining
workers return before doing any work, and `g.Wait` reports that error.
Returns (an error occurred, the event trace). -/
def runWorkers (rootDir : String) (parseDirFails : String → Bool) :
    List String → Bool × List ParseEvent
  | [] => (false, [])
  | d :: rest =>
      let sub := rootDir ++ "/" ++ d
      if parseDirFails sub then (true, [])
      else
        let r := runWorkers rootDir parseDirFails rest
        (r.1, .parsedDir sub :: r.2)

/-- `Parse` (src/unnamed/part_011 lines 47-128).  Inputs model the
run's environment: whether the task is nil, the entries returned by
`os.ReadDir` (name, IsDir), whether `ReadDir` itself fails, and which
directories `parseDir` fails on.  Returns (an error occurred, the event
trace).  Control flow mirrors the source: empty root and nil task
return errors immediately; with `splitByDir`, a `ReadDir` error
returns, zero subdirectories logs a warning and returns nil early, and
a worker error is returned by `g.Wait`; without `splitByDir`, a
`parseDir` error is returned; only the epilogue reached after all of
these calls `t.Close()` (line 125, not deferred). -/
def ParseM (rootDir : String) (taskNil : Bool) (splitByDir : Bool)
    (entries : List (String × Bool)) (readDirFails : Bool)
    (parseDirFails : String → Bool) : Bool × List ParseEvent :=
  if rootDir = "" then (true, [])
  else if taskNil then (true, [])
  else
    if splitByDir then
      if readDirFails then (true, [])
      else
        let dirs := (entries.filter (·.2)).map (·.1)
        if dirs.isEmpty then (false, [])
        else
          let w := runWorkers rootDir parseDirFails dirs
          if w.1 then (true, w.2)
          else (false, w.2 ++ [.closed])
    else
      if parseDirFails rootDir then (true, [])
      else (false, [.parsedDir rootDir, .closed])

/-- Invariant of one `ast.Inspect` walk segment relative to the call
stack at its start: the closure variable only grows (the output stack is
the input stack followed by exactly the names this segment pushed), a
duplicate-free stack stays duplicate-free, and a name already on the
stack at entry is neither pushed again nor inlined anywhere in the
emitted nodes. -/
def StackOk (stack : List String) (r : WalkOut) : Prop :=
  r.1 = stack ++ r.2.2 ∧
  (stack.Nodup → r.1.Nodup) ∧
  ∀ n, n ∈ stack →
    n ∉ r.2.2 ++ ExpandedStatement.allInlinedList r.2.1

/-- The joint induction hypothesis over the mutually recursive expansion
functions at a given fuel. -/
def WalkInv (fuel : Nat) : Prop :=
  (∀ env ier stack s, StackOk stack (inspectStmt env ier fuel stack s)) ∧
  (∀ env ier stack ss, StackOk stack (inspectStmts env ier fuel stack ss)) ∧
  (∀ env ier stack es, StackOk stack (inspectExprs env ier fuel stack es)) ∧
  (∀ env ier stack sp, StackOk stack (inspectSpecs env ier fuel stack sp)) ∧
  (∀ env ier stack e, StackOk stack (inspectExpr env ier fuel stack e)) ∧
  (∀ env stack fn args, StackOk stack (processCall env fuel stack fn args)) ∧
  (∀ env stmt stack n, n ∈ stack →
    n ∉ (expandStmtW env fuel stmt stack).allInlined)

/-- C1.  For every function declaration, `IsValidTestCase` returns
`(valid, badFormat)` matching the spec's truth table: `valid` is true iff
the name starts with `Test`, there is no receiver, no type parameters,
no results, and exactly one parameter field whose type is syntactically
`*testing.T`; and `badFormat` equals `valid && (character index 4 of the
name is missing or not an ASCII upper-case letter)` — so `badFormat` is
true only in that case and is false whenever `valid` is false. -/
theorem isValidTestCase_truth_table (fd : FuncDecl) (nm : String)
    (h : fd.name = some nm) :
    ((IsValidTestCase (some fd)).1 = true ↔
      (nm.startsWith "Test" = true ∧ fd.recv = false ∧ fd.typeParams = false ∧
        fd.results = false ∧ ∃ ns, fd.params = [⟨ns, some testingTType⟩])) ∧
    (IsValidTestCase (some fd)).2 =
      ((IsValidTestCase (some fd)).1 && badTestNameFormat nm) := by
  obtain ⟨nameF, recv, typeParams, results, params, body⟩ := fd
  cases h
  simp only [IsValidTestCase]
  by_cases hpre : nm.startsWith "Test" = true
  · simp only [hpre, Bool.not_true, Bool.false_eq_true, if_false]
    by_cases hsig : (recv || typeParams || results) = true
    · rcases Bool.or_eq_true_iff.mp hsig with h1 | h1
      · rcases Bool.or_eq_true_iff.mp h1 with h2 | h2 <;>
          simp [h2, testingTType]
      · simp [h1, testingTType]
    · have hr : recv = false := by
        revert hsig; cases recv <;> cases typeParams <;> cases results <;> simp
      have ht : typeParams = false := by
        revert hsig; cases recv <;> cases typeParams <;> cases results <;> simp
      have hres : results = false := by
        revert hsig; cases recv <;> cases typeParams <;> cases results <;> simp
      subst hr ht hres
      simp only [Bool.or_self, Bool.false_or, if_false]
      match params with
      | [] => simp
      | p :: q :: rest => simp
      | [⟨ns, pt⟩] =>
        match pt with
        | none => simp
        | some (.star (.selector (.ident pkg) sel)) =>
          by_cases hpkg : pkg = "testing"
          · by_cases hsel : sel = "T"
            · subst hpkg hsel
              simp [hpre, testingTType]
            · simp [hsel, testingTType, GoExpr.star.injEq]
          · simp [hpkg, testingTType, GoExpr.star.injEq]
        | some (.ident a) => simp [testingTType]
        | some (.selector x s) => simp [testingTType]
        | some (.star (.ident a)) => simp [testingTType]
        | some (.star (.selector (.selector a b) s)) => simp [testingTType]
        | some (.star (.selector (.star a) s)) => simp [testingTType]
        | some (.star (.selector (.call a b) s)) => simp [testingTType]
        | some (.star (.selector (.compositeLit a) s)) => simp [testingTType]
        | some (.star (.selector (.keyValue a b) s)) => simp [testingTType]
        | some (.star (.selector (.funcLit a b c) s)) => simp [testingTType]
        | some (.star (.selector (.binaryExpr a b) s)) => simp [testingTType]
        | some (.star (.selector .basicLit s)) => simp [testingTType]
        | some (.star (.star a)) => simp [testingTType]
        | some (.star (.call a b)) => simp [testingTType]
        | some (.star (.compositeLit a)) => simp [testingTType]
        | some (.star (.keyValue a b)) => simp [testingTType]
        | some (.star (.funcLit a b c)) => simp [testingTType]
        | some (.star (.binaryExpr a b)) => simp [testingTType]
        | some (.star .basicLit) => simp [testingTType]
        | some (.call a b) => simp [testingTType]
        | some (.compositeLit a) => simp [testingTType]
        | some (.keyValue a b) => simp [testingTType]
        | some (.funcLit a b c) => simp [testingTType]
        | some (.binaryExpr a b) => simp [testingTType]
        | some .basicLit => simp [testingTType]
  · simp [hpre]

/-- Witness for `isValidTestCase_truth_table` at the concrete declaration
`func TestFoo(t *testing.T)`. -/
theorem isValidTestCase_truth_table_witness :
    ((IsValidTestCase (some ⟨some "TestFoo", false, false, false,
        [⟨["t"], some testingTType⟩], []⟩)).1 = true ↔
      (("TestFoo").startsWith "Test" = true ∧ (false : Bool) = false ∧
        (false : Bool) = false ∧ (false : Bool) = false ∧
        ∃ ns, ([⟨["t"], some testingTType⟩] : List GoField) =
          [⟨ns, some testingTType⟩])) ∧
    (IsValidTestCase (some ⟨some "TestFoo", false, false, false,
        [⟨["t"], some testingTType⟩], []⟩)).2 =
      ((IsValidTestCase (some ⟨some "TestFoo", false, false, false,
        [⟨["t"], some testingTType⟩], []⟩)).1 && badTestNameFormat "TestFoo") :=
  isValidTestCase_truth_table _ "TestFoo" rfl

theorem detect_core (ss : ScenarioSet) (t : Option GoType) :
    (ss.detectScenarioDataStructure t).dataStructure
        = (ScenarioSet.detectScenarioDataStructure {} t).dataStructure ∧
    (ss.detectScenarioDataStructure t).scenarioType
        = (ScenarioSet.detectScenarioDataStructure {} t).scenarioType ∧
    (ss.detectScenarioDataStructure t).runner = ss.runner ∧
    (ss.detectScenarioDataStructure t).scenarios = ss.scenarios := by
  cases t with
  | none => simp [ScenarioSet.detectScenarioDataStructure]
  | some ty =>
    simp only [ScenarioSet.detectScenarioDataStructure]
    split <;> try simp
    · split <;> simp
    · split <;> simp
    · split <;> simp

theorem detect_structList (ss : ScenarioSet) (t : Option GoType)
    (h : (ss.detectScenarioDataStructure t).dataStructure = .structListDS) :
    ∃ fs, (ss.detectScenarioDataStructure t).scenarioType
      = some (.strukt fs) := by
  cases t with
  | none => simp [ScenarioSet.detectScenarioDataStructure] at h
  | some ty =>
    simp only [ScenarioSet.detectScenarioDataStructure] at h ⊢
    revert h
    split <;> try simp
    · split <;> simp
    · split <;> simp
    · split <;> simp

theorem identifyScenarios_core (ss : ScenarioSet) (tc : TestCase)
    (e : GoExpr) :
    (ss.identifyScenarios tc e).1.dataStructure = ss.dataStructure ∧
    (ss.identifyScenarios tc e).1.scenarioType = ss.scenarioType ∧
    (ss.identifyScenarios tc e).1.runner = ss.runner ∧
    ((ss.identifyScenarios tc e).1.scenarios ≠ none →
      ss.scenarios ≠ none ∨ ss.dataStructure ≠ .noDS) := by
  unfold ScenarioSet.identifyScenarios
  repeat' split
  all_goals simp_all

/-- The shape of every scenario-search step: the three fields other than
`scenarios` are untouched, and `scenarios` only becomes non-nil when the
data structure was already recognized. -/
def SearchCore (a b : ScenarioSet) : Prop :=
  b.dataStructure = a.dataStructure ∧ b.scenarioType = a.scenarioType ∧
  b.runner = a.runner ∧
  (b.scenarios ≠ none → a.scenarios ≠ none ∨ a.dataStructure ≠ .noDS)

theorem searchCore_refl (a : ScenarioSet) : SearchCore a a :=
  ⟨rfl, rfl, rfl, fun h => Or.inl h⟩

theorem searchCore_trans {a b c : ScenarioSet} (h1 : SearchCore a b)
    (h2 : SearchCore b c) : SearchCore a c := by
  obtain ⟨d1, t1, r1, s1⟩ := h1
  obtain ⟨d2, t2, r2, s2⟩ := h2
  refine ⟨d2.trans d1, t2.trans t1, r2.trans r1, fun h => ?_⟩
  rcases s2 h with h' | h'
  · exact s1 h'
  · rw [d1] at h'
    exact Or.inr h'

theorem identifyScenarios_searchCore (ss : ScenarioSet) (tc : TestCase)
    (e : GoExpr) : SearchCore ss (ss.identifyScenarios tc e).1 :=
  identifyScenarios_core ss tc e

theorem scanRhsExprs_searchCore (tc : TestCase) (ss : ScenarioSet)
    (l : List GoExpr) : SearchCore ss (scanRhsExprs tc ss l).1 := by
  induction l generalizing ss with
  | nil => exact searchCore_refl ss
  | cons e rest ih =>
    simp only [scanRhsExprs]
    have h1 := identifyScenarios_searchCore ss tc e
    split
    · next ss' heq =>
      have h0 : (ss.identifyScenarios tc e).1 = ss' := by rw [heq]
      exact h0 ▸ h1
    · next ss' heq =>
      have h0 : (ss.identifyScenarios tc e).1 = ss' := by rw [heq]
      exact searchCore_trans (h0 ▸ h1) (ih _)

theorem scanSpecValues_searchCore (tc : TestCase) (ss : ScenarioSet)
    (l : List (List GoExpr)) : SearchCore ss (scanSpecValues tc ss l).1 := by
  induction l generalizing ss with
  | nil => exact searchCore_refl ss
  | cons values rest ih =>
    simp only [scanSpecValues]
    have h1 := scanRhsExprs_searchCore tc ss values
    split
    · next ss' heq =>
      have h0 : (scanRhsExprs tc ss values).1 = ss' := by rw [heq]
      exact h0 ▸ h1
    · next ss' heq =>
      have h0 : (scanRhsExprs tc ss values).1 = ss' := by rw [heq]
      exact searchCore_trans (h0 ▸ h1) (ih _)

theorem searchScenarioStmt_searchCore (tc : TestCase) (ss : ScenarioSet)
    (stmt : GoStmt) : SearchCore ss (searchScenarioStmt tc ss stmt).1 := by
  unfold searchScenarioStmt
  split
  · split
    · exact scanRhsExprs_searchCore tc ss _
    · split
      · exact scanSpecValues_searchCore tc ss _
      · exact searchCore_refl ss
    · exact searchCore_refl ss
  · exact searchCore_refl ss

theorem searchScenarioStmts_searchCore (tc : TestCase) (ss : ScenarioSet)
    (l : List GoStmt) : SearchCore ss (searchScenarioStmts tc ss l) := by
  induction l generalizing ss with
  | nil => exact searchCore_refl ss
  | cons s rest ih =>
    simp only [searchScenarioStmts]
    have h1 := searchScenarioStmt_searchCore tc ss s
    split
    · next ss' heq =>
      have h0 : (searchScenarioStmt tc ss s).1 = ss' := by rw [heq]
      exact h0 ▸ h1
    · next ss' heq =>
      have h0 : (searchScenarioStmt tc ss s).1 = ss' := by rw [heq]
      exact searchCore_trans (h0 ▸ h1) (ih _)

theorem scanFileDecls_searchCore (tc : TestCase) (ss : ScenarioSet)
    (l : List GoGenDecl) : SearchCore ss (scanFileDecls tc ss l) := by
  induction l generalizing ss with
  | nil => exact searchCore_refl ss
  | cons d rest ih =>
    simp only [scanFileDecls]
    split
    · exact ih ss
    · have h1 := scanSpecValues_searchCore tc ss d.specValues
      split
      · next ss' heq =>
        have h0 : (scanSpecValues tc ss d.specValues).1 = ss' := by rw [heq]
        exact h0 ▸ h1
      · next ss' heq =>
        have h0 : (scanSpecValues tc ss d.specValues).1 = ss' := by rw [heq]
        exact searchCore_trans (h0 ▸ h1) (ih _)

theorem coreInv_of_searchCore {tc : TestCase} {a b : ScenarioSet}
    (hinv : CoreInv tc a) (h : SearchCore a b) : CoreInv tc b := by
  obtain ⟨hA, hB, hC, hD⟩ := hinv
  obtain ⟨hd, ht, hr, hs⟩ := h
  refine ⟨?_, ?_, ?_, ?_⟩
  · intro h0
    rw [hd] at h0
    obtain ⟨h1, h2, h3⟩ := hA h0
    refine ⟨ht.trans h1, ?_, hr.trans h3⟩
    by_contra hne
    rcases hs hne with h' | h'
    · exact h' h2
    · exact h' h0
  · intro h0
    rw [hd] at h0
    rw [ht]
    exact hB h0
  · intro h0
    rw [hd]
    rcases hs h0 with h' | h'
    · exact hC h'
    · exact h'
  · intro h0
    rw [hd] at h0
    rw [hd, ht, hr]
    exact hD h0

theorem detect_noDS (ss : ScenarioSet) (t : Option GoType)
    (h : (ss.detectScenarioDataStructure t).dataStructure = .noDS) :
    (ss.detectScenarioDataStructure t).scenarioType = none := by
  cases t with
  | none => simp [ScenarioSet.detectScenarioDataStructure]
  | some ty =>
    simp only [ScenarioSet.detectScenarioDataStructure] at h ⊢
    revert h
    repeat' split
    all_goals simp_all

theorem handleRangeRunner_inv (tc : TestCase) (ss : ScenarioSet)
    (key value : Option String) (x : GoExpr) (body : List GoStmt)
    (hrun : ss.runner = none) (hscen : ss.scenarios = none) :
    CoreInv tc (handleRangeRunner tc ss key value x body) := by
  have hcore := detect_core ss (tc.typeOf x)
  unfold handleRangeRunner
  by_cases hdds :
      (ss.detectScenarioDataStructure (tc.typeOf x)).dataStructure = .noDS
  · simp only [hdds, if_true]
    refine ⟨fun _ => ⟨detect_noDS ss _ hdds, ?_, ?_⟩, ?_, ?_, ?_⟩
    · rw [hcore.2.2.2, hscen]
    · rw [hcore.2.2.1, hrun]
    · intro h0
      rw [hdds] at h0
      exact ScenarioDataStructure.noConfusion h0
    · intro h0
      rw [hcore.2.2.2, hscen] at h0
      exact absurd rfl h0
    · intro h0
      exact absurd hdds h0
  · simp only [hdds, if_false]
    have hsc2 : SearchCore (ss.detectScenarioDataStructure (tc.typeOf x))
        (if x.isCompositeLit then
          ((ss.detectScenarioDataStructure (tc.typeOf x)).identifyScenarios
            tc x).1
         else ss.detectScenarioDataStructure (tc.typeOf x)) := by
      by_cases hcl : x.isCompositeLit
      · simp only [hcl, if_true]
        exact identifyScenarios_searchCore _ tc _
      · simp only [hcl, if_false]
        exact searchCore_refl _
    refine ⟨?_, ?_, ?_, ?_⟩
    · intro h0
      simp only [] at h0
      rw [hsc2.1] at h0
      exact absurd h0 hdds
    · intro h0
      simp only [] at h0 ⊢
      rw [hsc2.1] at h0
      rw [hsc2.2.1]
      exact detect_structList ss _ h0
    · intro _
      simp only []
      rw [hsc2.1]
      exact hdds
    · intro h0
      refine ⟨key, value, x, body, rfl, ?_, ?_⟩
      · simp only []
        rw [hsc2.1, hcore.1]
      · simp only []
        rw [hsc2.2.1, hcore.2.1]

theorem processExpandedStatement_inv (tc : TestCase) (ss : ScenarioSet)
    (e : Option ExpandedStatement) (hinv : CoreInv tc ss) :
    CoreInv tc (processExpandedStatement tc ss e) := by
  cases e with
  | none => exact hinv
  | some expanded =>
    simp only [processExpandedStatement]
    cases hrun : ss.runner with
    | some r =>
      exact coreInv_of_searchCore hinv
        (searchScenarioStmts_searchCore tc ss expanded.allStmts)
    | none =>
      -- with no runner yet, the invariant forces an all-empty core state
      have hds : ss.dataStructure = .noDS := by
        by_contra hne
        obtain ⟨k, v, x, b, hsome, -⟩ := hinv.2.2.2 hne
        rw [hrun] at hsome
        exact Option.noConfusion hsome
      obtain ⟨htype, hscen, -⟩ := hinv.1 hds
      cases expanded.stmt with
      | rangeStmt key value x body =>
        exact handleRangeRunner_inv tc ss key value x body hrun hscen
      | exprStmt xx =>
        exact coreInv_of_searchCore hinv
          (searchScenarioStmts_searchCore tc ss expanded.allStmts)
      | assign rhs =>
        exact coreInv_of_searchCore hinv
          (searchScenarioStmts_searchCore tc ss expanded.allStmts)
      | declStmt iv specs =>
        exact coreInv_of_searchCore hinv
          (searchScenarioStmts_searchCore tc ss expanded.allStmts)
      | forStmt b =>
        exact coreInv_of_searchCore hinv
          (searchScenarioStmts_searchCore tc ss expanded.allStmts)
      | continueStmt =>
        exact coreInv_of_searchCore hinv
          (searchScenarioStmts_searchCore tc ss expanded.allStmts)
      | returnStmt =>
        exact coreInv_of_searchCore hinv
          (searchScenarioStmts_searchCore tc ss expanded.allStmts)
      | otherStmt =>
        exact coreInv_of_searchCore hinv
          (searchScenarioStmts_searchCore tc ss expanded.allStmts)

theorem foldl_process_inv (tc : TestCase)
    (l : List (Option ExpandedStatement)) (ss : ScenarioSet)
    (hinv : CoreInv tc ss) :
    CoreInv tc (l.foldl (processExpandedStatement tc) ss) := by
  induction l generalizing ss with
  | nil => exact hinv
  | cons e rest ih =>
    exact ih _ (processExpandedStatement_inv tc ss e hinv)

theorem fileDeclPhase_inv (tc : TestCase) (ss : ScenarioSet)
    (hinv : CoreInv tc ss) : CoreInv tc (fileDeclPhase tc ss) := by
  unfold fileDeclPhase
  split
  · split
    · exact hinv
    · exact coreInv_of_searchCore hinv (scanFileDecls_searchCore tc ss _)
  · exact hinv

theorem analyze_core (ss : ScenarioSet) :
    (ss.analyze).dataStructure = ss.dataStructure ∧
    (ss.analyze).scenarioType = ss.scenarioType ∧
    (ss.analyze).scenarios = ss.scenarios ∧
    (ss.analyze).runner = ss.runner := by
  unfold ScenarioSet.analyze
  cases h : ss.scenarioType <;> simp [h]

theorem coreInv_default (tc : TestCase) : CoreInv tc {} := by
  refine ⟨fun _ => ⟨rfl, rfl, rfl⟩, fun h => ?_, fun h => ?_, fun h => ?_⟩
  · exact ScenarioDataStructure.noConfusion h
  · exact absurd rfl h
  · exact absurd rfl h

/-- C4.  For every `ScenarioSet` produced by `IdentifyScenarioSet`: if
the data structure is `none` then the scenarios and the scenario type
are empty; the scenarios are non-nil only when the data structure is
recognized and the scenario type is a struct or the structure is a map;
and whenever `IsTableDriven()` holds, the stored runner is a `range`
statement whose operand's type is the one from which the data structure
(and scenario type) were detected. -/
theorem identifyScenarioSet_invariants (tc : Option TestCase)
    (stmts : List (Option ExpandedStatement)) (ss : ScenarioSet)
    (h : IdentifyScenarioSet tc stmts = some ss) :
    (ss.dataStructure = .noDS →
        ss.scenarios = none ∧ ss.scenarioType = none) ∧
    (ss.scenarios ≠ none → ss.dataStructure ≠ .noDS ∧
        ((∃ fs, ss.scenarioType = some (.strukt fs)) ∨
          ss.dataStructure = .mapDS)) ∧
    (IsTableDriven (some ss) = true →
        ∃ tcv key value x body, tc = some tcv ∧
          ss.runner = some (.rangeStmt key value x body) ∧
          (ScenarioSet.detectScenarioDataStructure {}
              (tcv.typeOf x)).dataStructure = ss.dataStructure ∧
          (ScenarioSet.detectScenarioDataStructure {}
              (tcv.typeOf x)).scenarioType = ss.scenarioType) := by
  cases tc with
  | none => simp [IdentifyScenarioSet] at h
  | some tcv =>
    cases stmts with
    | nil => simp [IdentifyScenarioSet] at h
    | cons s0 rest =>
      simp only [IdentifyScenarioSet, Option.some.injEq] at h
      have hinv1 : CoreInv tcv
          (((s0 :: rest).reverse).foldl (processExpandedStatement tcv) {}) :=
        foldl_process_inv tcv _ _ (coreInv_default tcv)
      have hinv2 := fileDeclPhase_inv tcv _ hinv1
      have hana := analyze_core
        (fileDeclPhase tcv
          (((s0 :: rest).reverse).foldl (processExpandedStatement tcv) {}))
      rw [h] at hana
      obtain ⟨hA, hB, hC, hD⟩ := hinv2
      refine ⟨?_, ?_, ?_⟩
      · intro h0
        rw [hana.1] at h0
        obtain ⟨h1, h2, -⟩ := hA h0
        rw [hana.2.2.1, hana.2.1]
        exact ⟨h2, h1⟩
      · intro h0
        rw [hana.2.2.1] at h0
        have hMds := hC h0
        constructor
        · rw [hana.1]
          exact hMds
        · cases hds : ((fileDeclPhase tcv
              (((s0 :: rest).reverse).foldl (processExpandedStatement tcv)
                {})).dataStructure) with
          | noDS => exact absurd hds hMds
          | structListDS =>
            left
            rw [hana.2.1]
            exact hB hds
          | mapDS =>
            right
            rw [hana.1]
            exact hds
      · intro h0
        have hne : ss.dataStructure ≠ .noDS := by
          simp only [IsTableDriven, bne_iff_ne, ne_eq] at h0
          exact h0
        rw [hana.1] at hne
        obtain ⟨key, value, x, body, hr, hd1, hd2⟩ := hD hne
        refine ⟨tcv, key, value, x, body, rfl, ?_, ?_, ?_⟩
        · rw [hana.2.2.2, hr]
        · rw [hana.1, hd1]
        · rw [hana.2.1, hd2]

/-- Witness for `identifyScenarioSet_invariants` at a concrete
table-driven test (`cases := []T{{...},{...}}; for _, tt := range cases`
with `T = struct{Name string; Want int}`). -/
theorem identifyScenarioSet_invariants_witness :
    (sampleScenarioResult.dataStructure = .noDS →
        sampleScenarioResult.scenarios = none ∧
        sampleScenarioResult.scenarioType = none) ∧
    (sampleScenarioResult.scenarios ≠ none →
        sampleScenarioResult.dataStructure ≠ .noDS ∧
        ((∃ fs, sampleScenarioResult.scenarioType = some (.strukt fs)) ∨
          sampleScenarioResult.dataStructure = .mapDS)) ∧
    (IsTableDriven (some sampleScenarioResult) = true →
        ∃ tcv key value x body, some sampleTestCase = some tcv ∧
          sampleScenarioResult.runner = some (.rangeStmt key value x body) ∧
          (ScenarioSet.detectScenarioDataStructure {}
              (tcv.typeOf x)).dataStructure
            = sampleScenarioResult.dataStructure ∧
          (ScenarioSet.detectScenarioDataStructure {}
              (tcv.typeOf x)).scenarioType
            = sampleScenarioResult.scenarioType) :=
  identifyScenarioSet_invariants (some sampleTestCase) sampleStatements
    sampleScenarioResult rfl

/-- C2.  For every table-driven test whose recognized runner is a range
loop with non-nil key and value and for which a non-empty name field is
determined, `refactorToSubtests` returns status `success` and replaces
the runner loop's body with a one-element statement list whose single
element is the expression statement
`t.Run(<name expression>, func(t *testing.T) { <body> })`, where
`<body>` is exactly the original list of the runner's body
statements. -/
theorem refactorToSubtests_wraps_runner_body (tc : TestCase)
    (fd : FuncDecl) (ss : ScenarioSet) (key value : String) (x : GoExpr)
    (body : List GoStmt) (hfd : tc.funcDecl = some fd)
    (hrun : ss.runner = some (.rangeStmt (some key) (some value) x body))
    (hname : pickNameField ss ≠ "") :
    (refactorToSubtests (some tc) (some ss)).status = .success ∧
    ∃ nameExpr key2,
      (refactorToSubtests (some tc) (some ss)).newSS =
        some { ss with
          runner := some (.rangeStmt (some key2) (some value) x
            [.exprStmt (.call (.selector (.ident "t") "Run")
              [nameExpr, .funcLit "" [(["t"], testingTType)] body])]) } := by
  have hb : ss.getRunnerStatements = body := by
    simp [ScenarioSet.getRunnerStatements, hrun]
  have h0 : (pickNameField ss == "") = false := by
    cases h : pickNameField ss == "" with
    | false => rfl
    | true => exact absurd (eq_of_beq h) hname
  simp only [refactorToSubtests, hfd, hrun, h0, Bool.false_eq_true,
    if_false, hb]
  exact ⟨by trivial, _, _, rfl⟩

/-- Witness for `refactorToSubtests_wraps_runner_body` at the concrete
struct-list sample. -/
theorem refactorToSubtests_wraps_runner_body_witness :
    (refactorToSubtests (some sampleRefactorTC)
        (some sampleStructListSS)).status = .success ∧
    ∃ nameExpr key2,
      (refactorToSubtests (some sampleRefactorTC)
          (some sampleStructListSS)).newSS =
        some { sampleStructListSS with
          runner := some (.rangeStmt (some key2) (some "tt") (.ident "cases")
            [.exprStmt (.call (.selector (.ident "t") "Run")
              [nameExpr,
               .funcLit "" [(["t"], testingTType)] [.otherStmt]])]) } :=
  refactorToSubtests_wraps_runner_body sampleRefactorTC
    sampleRefactorFuncDecl sampleStructListSS "_" "tt" (.ident "cases")
    [.otherStmt] rfl rfl (by decide)

/-- C5 counterexample.  On the concrete map-keyed test whose loop key is
the blank identifier, the refactorer renames the key to `test` — not
`testName` as the claim states — and the subtest name expression is the
bare identifier `test`. -/
theorem refactorToSubtests_blank_key_renamed_to_test_not_testName :
    subtestRunnerOf (refactorToSubtests (some sampleRefactorTC)
        (some sampleMapSS)) =
      some (.rangeStmt (some "test") (some "v") (.ident "m")
        [.exprStmt (.call (.selector (.ident "t") "Run")
          [.ident "test",
           .funcLit "" [(["t"], testingTType)] [.otherStmt]])]) ∧
    subtestNameArg (refactorToSubtests (some sampleRefactorTC)
        (some sampleMapSS)) = some (.ident "test") ∧
    (GoExpr.ident "test" = GoExpr.ident "testName" → False) ∧
    (∀ b : List GoStmt,
      GoStmt.rangeStmt (some "test") (some "v") (.ident "m") b =
        .rangeStmt (some "testName") (some "v") (.ident "m") b →
          False) := by
  refine ⟨rfl, rfl, ?_, ?_⟩
  · intro h
    simp at h
  · intro b h
    simp at h

/-- C5 (amended).  During subtest synthesis, when the name field is
`"map key"` and the runner loop's key identifier is the blank identifier
`_`, the key identifier is renamed to `test` (not `testName`), the
loop's key identifier is updated in the AST, and the subtest name
expression passed to `t.Run` is the bare loop-key identifier `test`. -/
theorem refactorToSubtests_mapKey_blank_renames (tc : TestCase)
    (fd : FuncDecl) (ss : ScenarioSet) (value : String) (x : GoExpr)
    (body : List GoStmt) (hfd : tc.funcDecl = some fd)
    (hrun : ss.runner = some (.rangeStmt (some "_") (some value) x body))
    (hname : ss.nameField = "map key") :
    (refactorToSubtests (some tc) (some ss)).status = .success ∧
    (refactorToSubtests (some tc) (some ss)).newSS =
      some { ss with
        runner := some (.rangeStmt (some "test") (some value) x
          [.exprStmt (.call (.selector (.ident "t") "Run")
            [.ident "test",
             .funcLit "" [(["t"], testingTType)] body])]) } := by
  have hb : ss.getRunnerStatements = body := by
    simp [ScenarioSet.getRunnerStatements, hrun]
  have hpick : pickNameField ss = "map key" := by
    simp [pickNameField, hname]
  simp [refactorToSubtests, hfd, hrun, hpick, hb]

/-- Witness for `refactorToSubtests_mapKey_blank_renames` at the
concrete map sample. -/
theorem refactorToSubtests_mapKey_blank_renames_witness :
    (refactorToSubtests (some sampleRefactorTC)
        (some sampleMapSS)).status = .success ∧
    (refactorToSubtests (some sampleRefactorTC)
        (some sampleMapSS)).newSS =
      some { sampleMapSS with
        runner := some (.rangeStmt (some "test") (some "v") (.ident "m")
          [.exprStmt (.call (.selector (.ident "t") "Run")
            [.ident "test",
             .funcLit "" [(["t"], testingTType)] [.otherStmt]])]) } :=
  refactorToSubtests_mapKey_blank_renames sampleRefactorTC
    sampleRefactorFuncDecl sampleMapSS "v" (.ident "m") [.otherStmt]
    rfl rfl rfl

/-- C6 counterexample.  The enclosing declaration of the concrete sample
has no `*testing.T` (nor `*require.TestingT`) parameter —
`GetParamNameByType` fails — yet `refactorToSubtests` returns `success`,
not `noTester`: the tester variable is not detected at all. -/
theorem refactorToSubtests_succeeds_without_tester_param :
    GetParamNameByType (some sampleRefactorFuncDecl)
        [testingTType, requireTestingTType] = none ∧
    (refactorToSubtests (some sampleRefactorTC)
        (some sampleMapSS)).status = .success ∧
    (RefactorGenerationStatus.success = .noTester → False) ∧
    subtestCallFun (refactorToSubtests (some sampleRefactorTC)
        (some sampleMapSS)) =
      some (.selector (.ident "t") "Run") := by
  refine ⟨rfl, rfl, ?_, rfl⟩
  intro h
  simp at h

theorem refactorToSubtests_status_cases (tc : Option TestCase)
    (sso : Option ScenarioSet) :
    (refactorToSubtests tc sso).status = .genError ∨
    (refactorToSubtests tc sso).status = .genFail ∨
    (refactorToSubtests tc sso).status = .badFields ∨
    ((refactorToSubtests tc sso).status = .success ∧
      subtestCallFun (refactorToSubtests tc sso) =
        some (.selector (.ident "t") "Run")) := by
  cases tc with
  | none => left; rfl
  | some tcv =>
    simp only [refactorToSubtests]
    cases hfd : tcv.funcDecl with
    | none => left; rfl
    | some fd =>
      cases sso with
      | none => left; rfl
      | some ss =>
        dsimp only
        cases hrun : ss.runner with
        | none => right; left; rfl
        | some runner =>
          cases runner with
          | rangeStmt key value x b =>
            cases key with
            | none => right; left; rfl
            | some k =>
              cases value with
              | none => right; left; rfl
              | some v =>
                by_cases hnf : (pickNameField ss == "") = true
                · right; right; left
                  simp [hnf]
                · right; right; right
                  refine ⟨by simp [hnf], ?_⟩
                  simp [subtestCallFun, subtestRunnerOf, hnf]
          | exprStmt xx => right; left; rfl
          | assign rhs => right; left; rfl
          | declStmt iv specs => right; left; rfl
          | forStmt bb => right; left; rfl
          | continueStmt => right; left; rfl
          | returnStmt => right; left; rfl
          | otherStmt => right; left; rfl

/-- C6 (amended).  `refactorToSubtests` does not detect a tester
variable: it never returns `noTester` (for any input whatsoever), and on
success the generated call is always on the hardcoded identifier `t`
(`t.Run`), never derived from the enclosing declaration's parameters. -/
theorem refactorToSubtests_never_noTester (tc : Option TestCase)
    (sso : Option ScenarioSet) :
    ((refactorToSubtests tc sso).status == .noTester) = false ∧
    (((refactorToSubtests tc sso).status == .success) = true →
      subtestCallFun (refactorToSubtests tc sso) =
        some (.selector (.ident "t") "Run")) := by
  rcases refactorToSubtests_status_cases tc sso with h | h | h | ⟨h, h2⟩
  · rw [h]
    exact ⟨rfl, fun hs => by simp at hs⟩
  · rw [h]
    exact ⟨rfl, fun hs => by simp at hs⟩
  · rw [h]
    exact ⟨rfl, fun hs => by simp at hs⟩
  · rw [h]
    exact ⟨rfl, fun _ => h2⟩

/-- Witness for `refactorToSubtests_never_noTester` at the concrete map
sample. -/
theorem refactorToSubtests_never_noTester_witness :
    ((refactorToSubtests (some sampleRefactorTC)
        (some sampleMapSS)).status == .noTester) = false ∧
    (((refactorToSubtests (some sampleRefactorTC)
        (some sampleMapSS)).status == .success) = true →
      subtestCallFun (refactorToSubtests (some sampleRefactorTC)
          (some sampleMapSS)) =
        some (.selector (.ident "t") "Run")) :=
  refactorToSubtests_never_noTester (some sampleRefactorTC)
    (some sampleMapSS)

/-- C7 counterexample.  On the concrete test whose runner body is a
single top-level `continue` statement, the generated subtest closure
body still holds the `continue` unchanged — it is not replaced by a
`return` statement as the claim states. -/
theorem refactorToSubtests_keeps_continue_cex :
    subtestClosureBody (refactorToSubtests (some sampleRefactorTC)
        (some sampleContinueSS)) = some [.continueStmt] ∧
    (([GoStmt.continueStmt] : List GoStmt) = [GoStmt.returnStmt] →
      False) := by
  refine ⟨rfl, ?_⟩
  intro h
  simp at h

/-- C7 (amended).  No continue-to-return rewrite exists in the
implementation: the generated subtest closure body is exactly the
original list of runner body statements, `continue` statements
included. -/
theorem refactorToSubtests_no_continue_rewrite (tc : TestCase)
    (fd : FuncDecl) (ss : ScenarioSet) (key value : String) (x : GoExpr)
    (body : List GoStmt) (hfd : tc.funcDecl = some fd)
    (hrun : ss.runner = some (.rangeStmt (some key) (some value) x body))
    (hname : pickNameField ss ≠ "") :
    subtestClosureBody (refactorToSubtests (some tc) (some ss)) =
      some body ∧
    ((subtestClosureBody (refactorToSubtests (some tc)
        (some ss))).getD []).count GoStmt.continueStmt =
      body.count GoStmt.continueStmt := by
  have hb : ss.getRunnerStatements = body := by
    simp [ScenarioSet.getRunnerStatements, hrun]
  have h0 : (pickNameField ss == "") = false := by
    cases h : pickNameField ss == "" with
    | false => rfl
    | true => exact absurd (eq_of_beq h) hname
  simp only [refactorToSubtests, hfd, hrun, h0, Bool.false_eq_true,
    if_false, hb, subtestClosureBody]
  exact ⟨by trivial, by trivial⟩

/-- Witness for `refactorToSubtests_no_continue_rewrite` at the concrete
continue-bearing sample. -/
theorem refactorToSubtests_no_continue_rewrite_witness :
    subtestClosureBody (refactorToSubtests (some sampleRefactorTC)
        (some sampleContinueSS)) = some [.continueStmt] ∧
    ((subtestClosureBody (refactorToSubtests (some sampleRefactorTC)
        (some sampleContinueSS))).getD []).count GoStmt.continueStmt =
      ([GoStmt.continueStmt] : List GoStmt).count GoStmt.continueStmt :=
  refactorToSubtests_no_continue_rewrite sampleRefactorTC
    sampleRefactorFuncDecl sampleContinueSS "i" "tt" (.ident "cases")
    [.continueStmt] rfl rfl (by decide)


theorem saveLoop_clean (env : DiskEnv)
    (hr : ∀ p, env.readFails p = false)
    (hw : ∀ p, env.writeFails p = false) (rs : List RefactoredFunctionM) :
    ∀ (disk0 disk : Disk) (saved : List (String × List Nat)),
      SaveInv disk0 disk saved →
      (saveRefactoredFiles env rs disk saved).2.2 = true ∧
      SaveInv disk0 (saveRefactoredFiles env rs disk saved).1
        (saveRefactoredFiles env rs disk saved).2.1 ∧
      (∀ r ∈ rs,
        (((saveRefactoredFiles env rs disk saved).2.1).find?
          (fun kv => kv.1 == r.filePath)).isSome) ∧
      (∀ kv ∈ (saveRefactoredFiles env rs disk saved).2.1,
        kv ∈ saved ∨ kv.1 ∈ pathsOf rs) := by
  induction rs with
  | nil =>
    intro disk0 disk saved hinv
    refine ⟨rfl, hinv, by simp, ?_⟩
    intro kv hkv
    exact Or.inl hkv
  | cons r rest ih =>
    intro disk0 disk saved hinv
    simp only [saveRefactoredFiles, hr, hw, Bool.false_eq_true, if_false]
    by_cases hmem :
        ((saved.find? (fun kv => kv.1 == r.filePath)).isSome : Prop)
    · simp only [hmem, if_true]
      obtain ⟨hok, hinv2, hcov, hsub⟩ := ih disk0 disk saved hinv
      refine ⟨hok, hinv2, ?_, ?_⟩
      · intro r2 hr2
        rcases List.mem_cons.mp hr2 with h | h
        · subst h
          -- r2.filePath is already a key of `saved`, and the loop only
          -- appends entries, so it stays a key
          have hkeep : ∀ rs2 disk2 saved2,
              ((saved2.find? (fun kv => kv.1 == r2.filePath)).isSome : Prop) →
              ((((saveRefactoredFiles env rs2 disk2 saved2).2.1).find?
                (fun kv => kv.1 == r2.filePath)).isSome : Prop) := by
            intro rs2
            induction rs2 with
            | nil => intro disk2 saved2 hs; exact hs
            | cons r3 rest3 ih3 =>
              intro disk2 saved2 hs
              simp only [saveRefactoredFiles, hr, hw, Bool.false_eq_true,
                if_false]
              by_cases hm3 :
                  ((saved2.find? (fun kv => kv.1 == r3.filePath)).isSome :
                    Prop)
              · simp only [hm3, if_true]
                exact ih3 disk2 saved2 hs
              · simp only [hm3, if_false]
                refine ih3 _ _ ?_
                rw [List.find?_append]
                rcases Option.isSome_iff_exists.mp hs with ⟨kv, hkv⟩
                rw [hkv]
                simp
          exact hkeep rest disk saved hmem
        · exact hcov r2 h
      · intro kv hkv
        rcases hsub kv hkv with h | h
        · exact Or.inl h
        · exact Or.inr (List.mem_cons_of_mem _ h)
    · simp only [hmem, if_false]
      have hinv3 : SaveInv disk0 (disk.write r.filePath r.formatted)
          (saved ++ [(r.filePath, disk r.filePath)]) := by
        intro p
        rw [List.find?_append]
        cases hfind : saved.find? (fun kv => kv.1 == p) with
        | some kv =>
          have := hinv p
          rw [hfind] at this
          simpa [Option.or] using this
        | none =>
          have hd := hinv p
          rw [hfind] at hd
          simp only [Option.none_or]
          by_cases hp : (r.filePath == p) = true
          · have hpe : r.filePath = p := eq_of_beq hp
            simp only [List.find?_cons, List.find?_nil, hp]
            simpa [hpe] using hd
          · simp only [List.find?_cons, List.find?_nil, hp]
            have : (disk.write r.filePath r.formatted) p = disk p := by
              simp only [Disk.write]
              have hq2 : (p == r.filePath) = false := by
                cases hq : p == r.filePath with
                | false => rfl
                | true =>
                  have hpe : p = r.filePath := eq_of_beq hq
                  refine absurd ?_ hp
                  rw [hpe]
                  exact beq_self_eq_true r.filePath
              simp [hq2]
            rw [this]
            exact hd
      obtain ⟨hok, hinv2, hcov, hsub⟩ := ih disk0 _ _ hinv3
      refine ⟨hok, hinv2, ?_, ?_⟩
      · intro r2 hr2
        rcases List.mem_cons.mp hr2 with h | h
        · subst h
          have hkeep : ∀ rs2 disk2 saved2,
              ((saved2.find? (fun kv => kv.1 == r2.filePath)).isSome :
                Prop) →
              ((((saveRefactoredFiles env rs2 disk2 saved2).2.1).find?
                (fun kv => kv.1 == r2.filePath)).isSome : Prop) := by
            intro rs2
            induction rs2 with
            | nil => intro disk2 saved2 hs; exact hs
            | cons r3 rest3 ih3 =>
              intro disk2 saved2 hs
              simp only [saveRefactoredFiles, hr, hw, Bool.false_eq_true,
                if_false]
              by_cases hm3 :
                  ((saved2.find? (fun kv => kv.1 == r3.filePath)).isSome :
                    Prop)
              · simp only [hm3, if_true]
                exact ih3 disk2 saved2 hs
              · simp only [hm3, if_false]
                refine ih3 _ _ ?_
                rw [List.find?_append]
                rcases Option.isSome_iff_exists.mp hs with ⟨kv, hkv⟩
                rw [hkv]
                simp
          refine hkeep rest _ _ ?_
          rw [List.find?_append]
          cases hfind : saved.find? (fun kv => kv.1 == r2.filePath) with
          | some kv => simp
          | none => simp [List.find?_cons]
        · exact hcov r2 h
      · intro kv hkv
        rcases hsub kv hkv with h | h
        · rcases List.mem_append.mp h with h2 | h2
          · exact Or.inl h2
          · right
            have : kv = (r.filePath, disk r.filePath) := by
              simpa using h2
            subst this
            exact List.mem_cons_self _ _
        · exact Or.inr (List.mem_cons_of_mem _ h)


theorem restoreLoop_clean (env : DiskEnv)
    (hres : ∀ p, env.restoreFails p = false)
    (saved : List (String × List Nat)) (disk0 : Disk)
    (hsv : ∀ p kv, saved.find? (fun kv2 => kv2.1 == p) = some kv →
      kv.2 = disk0 p) :
    ∀ (rs : List RefactoredFunctionM) (disk : Disk)
      (cleaned : List RefactoredFunctionM),
      (∀ r ∈ rs,
        ((saved.find? (fun kv => kv.1 == r.filePath)).isSome : Prop)) →
      (∀ p, disk p = disk0 p ∨ p ∈ pathsOf rs) →
      (∀ p, (restoreOriginalFiles env saved rs disk cleaned).1 p = disk0 p) ∧
      (restoreOriginalFiles env saved rs disk cleaned).2.1 =
        cleaned ++ rs := by
  intro rs
  induction rs with
  | nil =>
    intro disk cleaned hcov hinv
    refine ⟨?_, by simp [restoreOriginalFiles]⟩
    intro p
    rcases hinv p with h | h
    · simpa [restoreOriginalFiles] using h
    · simp [pathsOf] at h
  | cons r rest ih =>
    intro disk cleaned hcov hinv
    simp only [restoreOriginalFiles, hres, Bool.false_eq_true, if_false]
    have hcovr := hcov r (List.mem_cons_self _ _)
    rcases Option.isSome_iff_exists.mp hcovr with ⟨kv, hkv⟩
    have horig :
        (((saved.find? (fun kv2 => kv2.1 == r.filePath)).map (·.2)).getD [])
          = disk0 r.filePath := by
      rw [hkv]
      simpa using hsv r.filePath kv hkv
    have hinv2 : ∀ p,
        (disk.write r.filePath
          (((saved.find? (fun kv2 => kv2.1 == r.filePath)).map
            (·.2)).getD [])) p = disk0 p ∨ p ∈ pathsOf rest := by
      intro p
      by_cases hp : (p == r.filePath) = true
      · left
        have hpe : p = r.filePath := eq_of_beq hp
        simp only [Disk.write, hp, if_true]
        rw [horig, hpe]
      · have hwr :
            (disk.write r.filePath
              (((saved.find? (fun kv2 => kv2.1 == r.filePath)).map
                (·.2)).getD [])) p = disk p := by
          simp only [Disk.write]
          simp [hp]
        rcases hinv p with h | h
        · left
          rw [hwr]
          exact h
        · simp only [pathsOf, List.map_cons, List.mem_cons] at h
          rcases h with h | h
          · exfalso
            apply hp
            rw [h]
            exact beq_self_eq_true r.filePath
          · right
            simpa [pathsOf] using h
    obtain ⟨h1, h2⟩ := ih _ (cleaned ++ [r])
      (fun r2 hr2 => hcov r2 (List.mem_cons_of_mem _ hr2)) hinv2
    refine ⟨h1, ?_⟩
    rw [h2]
    simp

/-- C3 (amended) helper: the save loop over an empty
`originalFileContents` map starts from a trivially valid invariant. -/
theorem saveInv_init (disk : Disk) : SaveInv disk disk [] := by
  intro p
  simp [List.find?]


theorem save_restore_roundtrip (env : DiskEnv)
    (hr : ∀ p, env.readFails p = false)
    (hw : ∀ p, env.writeFails p = false)
    (hres : ∀ p, env.restoreFails p = false)
    (rs : List RefactoredFunctionM) (disk : Disk) :
    (saveRefactoredFiles env rs disk []).2.2 = true ∧
    (∀ p, (restoreOriginalFiles env (saveRefactoredFiles env rs disk []).2.1
      rs (saveRefactoredFiles env rs disk []).1 []).1 p = disk p) ∧
    (restoreOriginalFiles env (saveRefactoredFiles env rs disk []).2.1 rs
      (saveRefactoredFiles env rs disk []).1 []).2.1 = rs := by
  obtain ⟨hok, hinv, hcov, hsub⟩ :=
    saveLoop_clean env hr hw rs disk disk [] (saveInv_init disk)
  have hsv : ∀ p kv,
      (saveRefactoredFiles env rs disk []).2.1.find?
        (fun kv2 => kv2.1 == p) = some kv → kv.2 = disk p := by
    intro p kv hkv
    have h := hinv p
    rw [hkv] at h
    exact h
  have hinit : ∀ p,
      (saveRefactoredFiles env rs disk []).1 p = disk p ∨
        p ∈ pathsOf rs := by
    intro p
    have h := hinv p
    cases hfind : (saveRefactoredFiles env rs disk []).2.1.find?
        (fun kv2 => kv2.1 == p) with
    | none =>
      rw [hfind] at h
      exact Or.inl h
    | some kv =>
      right
      have hmem := List.mem_of_find?_eq_some hfind
      rcases hsub kv hmem with h2 | h2
      · simp at h2
      · have hpred :=
          List.find?_some (p := fun kv2 : String × List Nat => kv2.1 == p)
            hfind
        have hkey : kv.1 = p := eq_of_beq (by simpa using hpred)
        rw [← hkey]
        exact h2
  obtain ⟨h1, h2⟩ := restoreLoop_clean env hres _ disk hsv rs _ [] hcov hinit
  exact ⟨hok, h1, by simpa using h2⟩


/-- C3 counterexample.  On a concrete run where every read and
refactored write succeeds but the restore write fails, the touched
file's bytes after `AttemptRefactoring` returns are the refactored
bytes `[2]`, not the pre-refactor bytes `[1]` — and no cleanup runs:
restoration is not achieved (nor re-attempted) on that exit path. -/
theorem attemptRefactoring_restore_failure_leaves_refactored_bytes :
    (AttemptRefactoring .subtest (some sampleAR) sampleFailingRestoreEnv
        sampleDisk).2.1 "a.go" = [2] ∧
    sampleDisk "a.go" = [1] ∧
    (([2] : List Nat) = [1] → False) ∧
    (AttemptRefactoring .subtest (some sampleAR) sampleFailingRestoreEnv
        sampleDisk).2.2 = [] := by
  refine ⟨?_, rfl, by simp, ?_⟩ <;> rfl

theorem refactorToSubtests_nonsuccess_refactorings
    (tc : Option TestCase) (sso : Option ScenarioSet)
    (h : ((refactorToSubtests tc sso).status != .success) = true) :
    (refactorToSubtests tc sso).refactorings = [] := by
  revert h
  cases tc with
  | none => intro h; rfl
  | some tcv =>
    simp only [refactorToSubtests]
    cases hfd : tcv.funcDecl with
    | none => intro h; rfl
    | some fd =>
      cases sso with
      | none => intro h; rfl
      | some ss =>
        dsimp only
        cases hrun : ss.runner with
        | none => intro h; rfl
        | some runner =>
          cases runner with
          | rangeStmt key value x b =>
            cases key with
            | none => intro h; rfl
            | some k =>
              cases value with
              | none => intro h; rfl
              | some v =>
                by_cases hnf : (pickNameField ss == "") = true
                · intro h
                  simp [hnf]
                · intro h
                  simp only [hnf, Bool.false_eq_true, if_false] at h
                  simp at h
          | exprStmt xx => intro h; rfl
          | assign rhs => intro h; rfl
          | declStmt iv specs => intro h; rfl
          | forStmt bb => intro h; rfl
          | continueStmt => intro h; rfl
          | returnStmt => intro h; rfl
          | otherStmt => intro h; rfl

/-- C3 (amended).  When every disk operation succeeds, every file
touched by `AttemptRefactoring` is restored to its pre-refactor bytes
before the call returns (restoration is unconditional — this revision
has no `keepRefactoredFiles` toggle), and every refactoring's cleanup is
invoked. -/
theorem attemptRefactoring_clean_io_roundtrip (strategy : RefactorStrategy)
    (ar : Option AnalysisResult) (env : DiskEnv) (disk : Disk)
    (hr : ∀ p, env.readFails p = false)
    (hw : ∀ p, env.writeFails p = false)
    (hres : ∀ p, env.restoreFails p = false) :
    (∀ p, (AttemptRefactoring strategy ar env disk).2.1 p = disk p) ∧
    (AttemptRefactoring strategy ar env disk).2.2 =
      (AttemptRefactoring strategy ar env disk).1.refactorings := by
  cases ar with
  | none => exact ⟨fun p => rfl, rfl⟩
  | some arv =>
    cases strategy with
    | noStrategy => exact ⟨fun p => rfl, rfl⟩
    | subtest =>
      simp only [AttemptRefactoring]
      cases htc : arv.tc with
      | none => exact ⟨fun p => rfl, rfl⟩
      | some tc =>
        by_cases hfs : (!arv.hasFset) = true
        · simp only [hfs, if_true]
          exact ⟨fun p => trivial, trivial⟩
        · simp only [Bool.not_eq_true] at hfs
          simp only [hfs, Bool.not_false, Bool.false_eq_true, if_false]
          by_cases hcand : (arv.ss.isNone || !(IsTableDriven arv.ss) ||
              (arv.ss.map (·.usesSubtest)).getD false) = true
          · simp only [hcand, if_true]
            exact ⟨fun p => trivial, trivial⟩
          · simp only [hcand, Bool.false_eq_true, if_false]
            by_cases herr :
                (refactorToSubtests (some tc) arv.ss).isErr = true
            · simp only [herr, if_true]
              exact ⟨fun p => trivial, trivial⟩
            · simp only [herr, Bool.false_eq_true, if_false]
              by_cases hst :
                  ((refactorToSubtests (some tc) arv.ss).status !=
                    .success) = true
              · simp only [hst, if_true]
                refine ⟨by simp, ?_⟩
                exact
                  (refactorToSubtests_nonsuccess_refactorings _ _ hst).symm
              · simp only [hst, Bool.false_eq_true, if_false]
                obtain ⟨hok, hdisk, hclean⟩ :=
                  save_restore_roundtrip env hr hw hres
                    (refactorToSubtests (some tc) arv.ss).refactorings disk
                simp only [hok, Bool.not_true, Bool.false_eq_true, if_false]
                exact ⟨hdisk, hclean⟩

/-- Witness for C3 (amended): concrete run of `AttemptRefactoring` on
the sample analysis result with the clean environment — the disk is
restored and every refactoring is cleaned up. -/
theorem attemptRefactoring_clean_io_roundtrip_witness :
    (∀ p, sampleCleanEnv.readFails p = false) ∧
    (∀ p, sampleCleanEnv.writeFails p = false) ∧
    (∀ p, sampleCleanEnv.restoreFails p = false) ∧
    ((∀ p, (AttemptRefactoring .subtest (some sampleAR) sampleCleanEnv
        sampleDisk).2.1 p = sampleDisk p) ∧
     (AttemptRefactoring .subtest (some sampleAR) sampleCleanEnv
        sampleDisk).2.2 =
       (AttemptRefactoring .subtest (some sampleAR) sampleCleanEnv
        sampleDisk).1.refactorings) :=
  ⟨fun _ => rfl, fun _ => rfl, fun _ => rfl,
   attemptRefactoring_clean_io_roundtrip .subtest (some sampleAR)
     sampleCleanEnv sampleDisk (fun _ => rfl) (fun _ => rfl)
     (fun _ => rfl)⟩

/-- Inline records of a concatenated forest split into the two parts. -/
theorem allInlinedList_append (a b : List ExpandedStatement) :
    ExpandedStatement.allInlinedList (a ++ b) =
      ExpandedStatement.allInlinedList a ++
        ExpandedStatement.allInlinedList b := by
  induction a with
  | nil => simp [ExpandedStatement.allInlinedList]
  | cons c cs ih =>
      simp [ExpandedStatement.allInlinedList, ih]

/-- Membership in a forest's inline records means membership in some
tree's records. -/
theorem mem_allInlinedList (n : String) (cs : List ExpandedStatement) :
    n ∈ ExpandedStatement.allInlinedList cs ↔
      ∃ c, c ∈ cs ∧ n ∈ c.allInlined := by
  induction cs with
  | nil => simp [ExpandedStatement.allInlinedList]
  | cons c cs ih =>
      simp only [ExpandedStatement.allInlinedList, List.mem_append, ih,
        List.mem_cons]
      constructor
      · rintro (h | ⟨c2, hc2, hn⟩)
        · exact ⟨c, Or.inl rfl, h⟩
        · exact ⟨c2, Or.inr hc2, hn⟩
      · rintro ⟨c2, (rfl | hc2), hn⟩
        · exact Or.inl hn
        · exact Or.inr ⟨c2, hc2, hn⟩

/-- The walk invariant holds of a segment that pushes nothing and emits
nothing. -/
theorem stackOk_base (stack : List String) :
    StackOk stack (stack, [], []) :=
  ⟨(List.append_nil stack).symm, fun h => h,
   fun n _ => by simp [ExpandedStatement.allInlinedList]⟩

/-- The walk invariant composes over sequential walk segments threading
the mutated call stack. -/
theorem stackOk_seq {stack : List String} {r1 r2 : WalkOut}
    (h1 : StackOk stack r1) (h2 : StackOk r1.1 r2) :
    StackOk stack (r2.1, r1.2.1 ++ r2.2.1, r1.2.2 ++ r2.2.2) := by
  obtain ⟨e1, nd1, g1⟩ := h1
  obtain ⟨e2, nd2, g2⟩ := h2
  refine ⟨?_, ?_, ?_⟩
  · show r2.1 = stack ++ (r1.2.2 ++ r2.2.2)
    rw [e2, e1, List.append_assoc]
  · intro h
    exact nd2 (nd1 h)
  · intro n hn
    have hn1 : n ∈ r1.1 := by
      rw [e1]
      exact List.mem_append_left _ hn
    have hg1 := g1 n hn
    have hg2 := g2 n hn1
    show n ∉ (r1.2.2 ++ r2.2.2) ++
      ExpandedStatement.allInlinedList (r1.2.1 ++ r2.2.1)
    simp only [List.mem_append, allInlinedList_append] at hg1 hg2 ⊢
    tauto

/-- The walk invariant survives wrapping a handler's output in a fresh
`ExprStmt` node (the non-`ExprStmt`-root case of the handler). -/
theorem stackOk_wrap {stack : List String} {r : WalkOut} (s : GoStmt)
    (h : StackOk stack r) :
    StackOk stack
      (r.1, [ExpandedStatement.mk s r.2.1 r.2.2], r.2.2) := by
  obtain ⟨e, nd, g⟩ := h
  refine ⟨e, nd, ?_⟩
  intro n hn
  have hg := g n hn
  show n ∉ r.2.2 ++ ExpandedStatement.allInlinedList
    [ExpandedStatement.mk s r.2.1 r.2.2]
  simp only [ExpandedStatement.allInlinedList, ExpandedStatement.allInlined,
    List.mem_append, List.append_nil] at hg ⊢
  tauto

/-- The walk invariant holds of every expansion function at every fuel:
proved by simultaneous induction on the fuel, following the mutual
recursion of `expandStatementWithStack`'s embedding. -/
theorem walkInv_holds : ∀ fuel, WalkInv fuel := by
  intro fuel
  induction fuel with
  | zero =>
      refine ⟨?_, ?_, ?_, ?_, ?_, ?_, ?_⟩
      · intro env ier stack s
        exact stackOk_base stack
      · intro env ier stack ss
        exact stackOk_base stack
      · intro env ier stack es
        exact stackOk_base stack
      · intro env ier stack sp
        exact stackOk_base stack
      · intro env ier stack e
        exact stackOk_base stack
      · intro env stack fn args
        exact stackOk_base stack
      · intro env stmt stack n hn
        simp [expandStmtW, ExpandedStatement.allInlined,
          ExpandedStatement.allInlinedList]
  | succ fuel ih =>
      obtain ⟨ihS, ihSS, ihES, ihSP, ihE, ihC, ihX⟩ := ih
      have hC : ∀ env stack fn args,
          StackOk stack (processCall env (fuel + 1) stack fn args) := by
        intro env stack fn args
        have hArg : ∀ n, n ∈ stack →
            n ∉ ExpandedStatement.allInlinedList
              ((args.filter GoExpr.isCall).map
                (fun a => expandStmtW env fuel (.exprStmt a) stack)) := by
          intro n hn hmem
          rw [mem_allInlinedList] at hmem
          obtain ⟨c, hc, hnc⟩ := hmem
          rw [List.mem_map] at hc
          obtain ⟨a, _, rfl⟩ := hc
          exact ihX env _ stack n hn hnc
        simp only [processCall]
        cases hres : resolveCall env fn with
        | none =>
            refine ⟨(List.append_nil stack).symm, fun h => h, ?_⟩
            intro n hn
            show n ∉ [] ++ ExpandedStatement.allInlinedList
              ((args.filter GoExpr.isCall).map
                (fun a => expandStmtW env fuel (.exprStmt a) stack))
            rw [List.nil_append]
            exact hArg n hn
        | some nb =>
            dsimp only
            by_cases hcon : stack.contains nb.1 = true
            · rw [if_pos hcon]
              refine ⟨(List.append_nil stack).symm, fun h => h, ?_⟩
              intro n hn
              show n ∉ [] ++ ExpandedStatement.allInlinedList
                ((args.filter GoExpr.isCall).map
                  (fun a => expandStmtW env fuel (.exprStmt a) stack))
              rw [List.nil_append]
              exact hArg n hn
            · rw [if_neg hcon]
              have hnb : nb.1 ∉ stack := by
                intro hmem
                exact hcon (by simpa using hmem)
              refine ⟨rfl, ?_, ?_⟩
              · intro hnd
                show (stack ++ [nb.1]).Nodup
                simp [List.nodup_append, hnd, hnb]
              · intro n hn
                have hne : n ≠ nb.1 := fun h => hnb (h ▸ hn)
                show n ∉ [nb.1] ++ ExpandedStatement.allInlinedList
                  (((args.filter GoExpr.isCall).map
                      (fun a => expandStmtW env fuel (.exprStmt a) stack)) ++
                    nb.2.map (fun s =>
                      expandStmtW env fuel s (stack ++ [nb.1])))
                simp only [List.mem_append, allInlinedList_append,
                  List.mem_singleton]
                rintro (h | h | h)
                · exact hne h
                · exact hArg n hn h
                · rw [mem_allInlinedList] at h
                  obtain ⟨c, hc, hnc⟩ := h
                  rw [List.mem_map] at hc
                  obtain ⟨a, _, rfl⟩ := hc
                  exact ihX env _ (stack ++ [nb.1]) n
                    (List.mem_append_left _ hn) hnc
      refine ⟨?_, ?_, ?_, ?_, ?_, hC, ?_⟩
      · intro env ier stack s
        cases s with
        | exprStmt x => exact ihE env ier stack x
        | assign rhs => exact ihES env ier stack rhs
        | declStmt iv specs => exact ihSP env ier stack specs
        | rangeStmt k v x b =>
            exact stackOk_seq (ihE env ier stack x) (ihSS env ier _ b)
        | forStmt b => exact ihSS env ier stack b
        | continueStmt => exact stackOk_base stack
        | returnStmt => exact stackOk_base stack
        | otherStmt => exact stackOk_base stack
      · intro env ier stack ss
        cases ss with
        | nil => exact stackOk_base stack
        | cons s rest =>
            exact stackOk_seq (ihS env ier stack s) (ihSS env ier _ rest)
      · intro env ier stack es
        cases es with
        | nil => exact stackOk_base stack
        | cons e rest =>
            exact stackOk_seq (ihE env ier stack e) (ihES env ier _ rest)
      · intro env ier stack sp
        cases sp with
        | nil => exact stackOk_base stack
        | cons v rest =>
            exact stackOk_seq (ihES env ier stack v) (ihSP env ier _ rest)
      · intro env ier stack e
        cases e with
        | ident nm => exact stackOk_base stack
        | basicLit => exact stackOk_base stack
        | selector x sel => exact ihE env ier stack x
        | star x => exact ihE env ier stack x
        | call fn args =>
            cases ier with
            | true => exact ihC env stack fn args
            | false => exact stackOk_wrap _ (ihC env stack fn args)
        | compositeLit elts => exact ihES env ier stack elts
        | keyValue k v =>
            exact stackOk_seq (ihE env ier stack k) (ihE env ier _ v)
        | funcLit p ps b =>
            exact stackOk_seq (ihES env ier stack (ps.map (·.2)))
              (ihSS env ier _ b)
        | binaryExpr x y =>
            exact stackOk_seq (ihE env ier stack x) (ihE env ier _ y)
      · intro env stmt stack n hn
        obtain ⟨e1, nd1, g1⟩ :=
          ihS env (match stmt with | .exprStmt _ => true | _ => false)
            stack stmt
        have hg := g1 n hn
        simp only [List.mem_append, not_or] at hg
        simp only [expandStmtW, ExpandedStatement.allInlined,
          List.mem_append, not_or]
        split
        · exact ⟨hg.1, hg.2⟩
        · exact ⟨by simp, hg.2⟩

/-- C8 (amended).  The recursion guard of `expandStatementWithStack`
holds as stated for the threaded call stack: a function name already on
the active call stack when an expansion starts is never inlined anywhere
in the resulting expansion tree — neither at the root's walk nor in any
nested body expansion, because every nested expansion runs with a stack
that still contains the name.  (The claim's further consequence, that no
name appears twice on a root-to-leaf path, fails for calls in argument
position; see the counterexample.) -/
theorem expandStatement_recursion_guard (env : ExpandEnv) (fuel : Nat)
    (stmt : GoStmt) (stack : List String) (n : String) (h : n ∈ stack) :
    n ∉ (expandStmtW env fuel stmt stack).allInlined :=
  (walkInv_holds fuel).2.2.2.2.2.2 env stmt stack n h

/-- Witness for C8 (amended): with `f` already on the call stack, the
expansion of `f(f(x))` inlines nothing at all. -/
theorem expandStatement_recursion_guard_witness :
    ("f" ∈ ["f"] ∧
      "f" ∉ (expandStmtW sampleRecEnv 10 sampleRecStmt ["f"]).allInlined) :=
  ⟨by decide,
   expandStatement_recursion_guard sampleRecEnv 10 sampleRecStmt ["f"] "f"
     (by decide)⟩

/-- Counterexample to C8 as claimed.  Expanding the single statement
`f(f(x))` (where `f` is a same-package function with body
`otherStmt`): the argument call `f(x)` is expanded as a standalone
statement using the call stack as it is BEFORE the outer `f` is pushed
(src/pkg/testcase/expandedstatement.go lines 91-99 run before line
135), so `f` is inlined both at the root and at the argument child —
the root-to-leaf path through the argument child carries the name `f`
twice, refuting the claim that no function name appears more than once
on any root-to-leaf path. -/
theorem expandStatement_duplicate_name_on_path :
    ExpandedStatement.pathNames
        (ExpandStatement sampleRecEnv 10 sampleRecStmt) =
      [["f", "f"], ["f"]] ∧
    (List.Nodup ["f", "f"] → False) := by
  constructor
  · decide
  · decide

/-- C10.  Within the expansion of one statement: (i) `ExpandStatement`
starts every statement from the empty (nil) call stack; (ii) the walk of
the statement only appends to the closure variable `callStack` — the
stack after the walk is the stack at entry followed by exactly the names
inlined (pushed) during the walk, so every push persists for the
remainder of that statement's walk; (iii) starting from a duplicate-free
stack the resulting stack is still duplicate-free — no name is pushed
(inlined at walk level) twice within one statement, sibling calls
included; and (iv) a name on the stack at entry is never inlined
anywhere in the emitted nodes, later sub-walks included. -/
theorem expandStatement_callStack_persists (env : ExpandEnv) (fuel : Nat)
    (s : GoStmt) :
    ExpandStatement env fuel s = expandStmtW env fuel s [] ∧
    (∀ ier stack,
      (inspectStmt env ier fuel stack s).1 =
        stack ++ (inspectStmt env ier fuel stack s).2.2 ∧
      (List.Nodup stack →
        List.Nodup
          (stack ++ (inspectStmt env ier fuel stack s).2.2)) ∧
      (∀ n, n ∈ stack →
        n ∉ (inspectStmt env ier fuel stack s).2.2 ++
          ExpandedStatement.allInlinedList
            (inspectStmt env ier fuel stack s).2.1)) := by
  refine ⟨rfl, ?_⟩
  intro ier stack
  obtain ⟨e1, nd1, g1⟩ := (walkInv_holds fuel).1 env ier stack s
  refine ⟨e1, ?_, g1⟩
  intro hnd
  have := nd1 hnd
  rw [e1] at this
  exact this

/-- A successful worker sweep emits only `parsedDir` events — never a
`closed` event (`parseDir` never calls `Close`). -/
theorem runWorkers_no_closed (rootDir : String)
    (parseDirFails : String → Bool) (ds : List String) :
    (runWorkers rootDir parseDirFails ds).2.count ParseEvent.closed
      = 0 := by
  induction ds with
  | nil => rfl
  | cons d rest ih =>
      simp only [runWorkers]
      split
      · rfl
      · simpa [List.count_cons] using ih

/-- Counterexample to C9 as claimed.  With `splitByDir` set and a root
directory containing no subdirectories, `Parse` hits the `!foundDir`
early return (src/unnamed/part_011 lines 102-105): it logs a warning
and returns nil BEFORE reaching `t.Close()` at line 125, so `Close` is
called zero times, not exactly once. -/
theorem parse_zero_subdirs_skips_close :
    ParseM "root" false true [] false (fun _ => false) = (false, []) ∧
    (ParseM "root" false true [] false (fun _ => false)).2.count
      ParseEvent.closed = 0 ∧
    ((0 : Nat) = 1 → False) := by
  refine ⟨rfl, rfl, by decide⟩

/-- C9 (amended).  `t.Close()` (line 125) is not deferred: it runs
exactly once, as the last action after every per-directory parse, but
only on runs that reach the success epilogue.  Every early return skips
it: empty root directory, nil task, `os.ReadDir` failure, zero
subdirectories found, a worker error from `g.Wait`, or a `parseDir`
error in the unsplit mode.  This theorem states the epilogue half: on a
run with a nonempty root, a non-nil task, a working `ReadDir`, at least
one subdirectory when `splitByDir` is set, and no `parseDir` failure,
the trace contains exactly one `closed` event and it comes after all
`parsedDir` events. -/
theorem parse_close_exactly_once_on_success (rootDir : String)
    (splitByDir : Bool) (entries : List (String × Bool))
    (parseDirFails : String → Bool)
    (hroot : (rootDir = "") → False)
    (hsplit : splitByDir = true →
      ((entries.filter (·.2)).map (·.1)).isEmpty = false ∧
      (runWorkers rootDir parseDirFails
        ((entries.filter (·.2)).map (·.1))).1 = false)
    (hflat : splitByDir = false → parseDirFails rootDir = false) :
    (ParseM rootDir false splitByDir entries false parseDirFails).1
      = false ∧
    (ParseM rootDir false splitByDir entries false
      parseDirFails).2.count ParseEvent.closed = 1 ∧
    (ParseM rootDir false splitByDir entries false
      parseDirFails).2.getLast? = some ParseEvent.closed := by
  simp only [ParseM]
  rw [if_neg hroot]
  cases splitByDir with
  | false =>
      have hpd : ¬ (parseDirFails rootDir = true) := by
        rw [hflat rfl]
        exact Bool.false_ne_true
      rw [if_neg Bool.false_ne_true, if_neg hpd]
      refine ⟨rfl, rfl, rfl⟩
  | true =>
      obtain ⟨hne, hwerr⟩ := hsplit rfl
      refine ⟨?_, ?_, ?_⟩ <;>
        simp [hne, hwerr, List.count_append, runWorkers_no_closed,
          List.getLast?_concat]

/-- Witness for C9 (amended): a concrete split run over one
subdirectory reaches the epilogue and closes exactly once, last. -/
theorem parse_close_exactly_once_on_success_witness :
    (ParseM "root" false true [("a", true)] false (fun _ => false)).1
      = false ∧
    (ParseM "root" false true [("a", true)] false
      (fun _ => false)).2.count ParseEvent.closed = 1 ∧
    (ParseM "root" false true [("a", true)] false
      (fun _ => false)).2.getLast? = some ParseEvent.closed :=
  parse_close_exactly_once_on_success "root" true [("a", true)]
    (fun _ => false) (by decide) (fun _ => ⟨rfl, rfl⟩)
    (fun h => absurd h (by decide))

end GoTestParser
